import Mathlib

/-!
Verification development for a real-time multiplayer room server.

The source program keeps, per room, insertion-ordered `Map`s of players,
enemies and projectiles, mutates them from socket handlers (`joinRoom`,
`input`, `action`, `disconnect`) and from a fixed-rate tick loop
(player movement, enemy AI, cast resolution, projectile motion and hit
detection).

Embedding conventions:
* a JS `Map` is an insertion-ordered association list (`JMap`): `set` on a
  present key updates in place, on an absent key appends; `delete` removes;
  iteration is list order — exactly the JS iteration-order semantics;
* JS numbers are real numbers; millisecond timestamps produced by
  `Date.now()` are integers; `Math.sqrt`, `Math.cos`, … are the real
  functions, which forces the geometric definitions to be `noncomputable`;
* each call to `Math.random()` is an oracle value passed in explicitly;
* `undefined`/`null`-able string fields are `Option String`, and the JS
  truthiness test on strings (empty string is falsy) is `strTruthy`.
-/

namespace RT

/-! ## Insertion-ordered maps (JS `Map` semantics) -/

abbrev JMap (β : Type) := List (String × β)

def jGet {β : Type} : JMap β → String → Option β
  | [], _ => none
  | e :: rest, k => if e.1 = k then some e.2 else jGet rest k

def jHas {β : Type} : JMap β → String → Bool
  | [], _ => false
  | e :: rest, k => if e.1 = k then true else jHas rest k

def jSet {β : Type} : JMap β → String → β → JMap β
  | [], k, v => [(k, v)]
  | e :: rest, k, v => if e.1 = k then (k, v) :: rest else e :: jSet rest k v

def jDel {β : Type} : JMap β → String → JMap β
  | [], _ => []
  | e :: rest, k => if e.1 = k then jDel rest k else e :: jDel rest k

def keys {β : Type} (m : JMap β) : List String := m.map Prod.fst

theorem jHas_eq_isSome {β : Type} (m : JMap β) (k : String) :
    jHas m k = (jGet m k).isSome := by
  induction m with
  | nil => rfl
  | cons e rest ih =>
    by_cases h : e.1 = k
    · simp [jHas, jGet, h]
    · simp [jHas, jGet, h, ih]

theorem jHas_iff_mem_keys {β : Type} (m : JMap β) (k : String) :
    jHas m k = true ↔ k ∈ keys m := by
  induction m with
  | nil => simp [jHas, keys]
  | cons e rest ih =>
    obtain ⟨k0, w⟩ := e
    rw [jHas, keys, List.map_cons, List.mem_cons]
    by_cases hk : k0 = k
    · simp [hk]
    · rw [if_neg hk]
      constructor
      · intro h
        exact Or.inr (ih.mp h)
      · rintro (h | h)
        · exact absurd h.symm hk
        · exact ih.mpr h

theorem jGet_mem {β : Type} {m : JMap β} {k : String} {v : β}
    (h : jGet m k = some v) : (k, v) ∈ m := by
  induction m with
  | nil => simp [jGet] at h
  | cons e rest ih =>
    obtain ⟨k0, w⟩ := e
    by_cases hk : k0 = k
    · rw [jGet, if_pos hk] at h
      have hw : w = v := by injection h
      exact List.mem_cons.mpr (Or.inl (by rw [hk, hw]))
    · rw [jGet, if_neg hk] at h
      exact List.mem_cons_of_mem _ (ih h)

theorem jGet_jSet_self {β : Type} (m : JMap β) (k : String) (v : β) :
    jGet (jSet m k v) k = some v := by
  induction m with
  | nil => simp [jSet, jGet]
  | cons e rest ih =>
    by_cases h : e.1 = k
    · simp [jSet, h, jGet]
    · simp [jSet, h, jGet, ih]

theorem jGet_jSet_ne {β : Type} (m : JMap β) (k k' : String) (v : β)
    (h : k' ≠ k) : jGet (jSet m k v) k' = jGet m k' := by
  have h' : ¬ (k = k') := fun hc => h hc.symm
  induction m with
  | nil => simp [jSet, jGet, h']
  | cons e rest ih =>
    obtain ⟨k0, w⟩ := e
    by_cases hk : k0 = k
    · subst hk
      simp [jSet, jGet, h']
    · simp only [jSet, if_neg hk, jGet, ih]

theorem jGet_jDel {β : Type} (m : JMap β) (k k' : String) :
    jGet (jDel m k) k' = if k' = k then none else jGet m k' := by
  induction m with
  | nil => simp [jDel, jGet]
  | cons e rest ih =>
    obtain ⟨k0, w⟩ := e
    by_cases hk : k0 = k
    · subst hk
      rw [jDel, if_pos rfl, ih]
      by_cases h' : k' = k0
      · simp [h']
      · have hne : ¬ k0 = k' := fun hc => h' hc.symm
        simp [jGet, h', hne]
    · rw [jDel, if_neg hk]
      by_cases hk' : k0 = k'
      · rw [jGet, if_pos hk', if_neg (fun hc : k' = k => hk (hk'.trans hc)), jGet, if_pos hk']
      · rw [jGet, if_neg hk', ih, jGet]
        by_cases h2 : k' = k
        · simp [h2]
        · simp [h2, hk']

theorem keys_jSet {β : Type} (m : JMap β) (k : String) (v : β) :
    keys (jSet m k v) = if jHas m k then keys m else keys m ++ [k] := by
  induction m with
  | nil => simp [jSet, jHas, keys]
  | cons e rest ih =>
    by_cases h : e.1 = k
    · simp [jSet, jHas, h, keys]
    · simp only [jSet, jHas, if_neg h, keys, List.map_cons]
      rw [show (jSet rest k v).map Prod.fst = keys (jSet rest k v) from rfl, ih]
      by_cases hh : jHas rest k
      · simp [hh, keys]
      · simp [hh, keys]

theorem length_jSet {β : Type} (m : JMap β) (k : String) (v : β) :
    (jSet m k v).length = if jHas m k then m.length else m.length + 1 := by
  induction m with
  | nil => simp [jSet, jHas]
  | cons e rest ih =>
    by_cases h : e.1 = k
    · simp [jSet, jHas, h]
    · simp only [jSet, jHas, if_neg h, List.length_cons, ih]
      by_cases hh : jHas rest k
      · simp [hh]
      · simp [hh]

theorem mem_jSet {β : Type} {m : JMap β} {k : String} {v : β} {e : String × β}
    (h : e ∈ jSet m k v) : e = (k, v) ∨ e ∈ m := by
  induction m with
  | nil =>
    simp [jSet] at h
    exact Or.inl h
  | cons e0 rest ih =>
    by_cases hk : e0.1 = k
    · rw [jSet, if_pos hk] at h
      rcases List.mem_cons.mp h with h' | h'
      · exact Or.inl h'
      · exact Or.inr (List.mem_cons_of_mem _ h')
    · rw [jSet, if_neg hk] at h
      rcases List.mem_cons.mp h with h' | h'
      · exact Or.inr (h' ▸ List.mem_cons_self _ _)
      · rcases ih h' with h'' | h''
        · exact Or.inl h''
        · exact Or.inr (List.mem_cons_of_mem _ h'')

theorem mem_jDel {β : Type} {m : JMap β} {k : String} {e : String × β}
    (h : e ∈ jDel m k) : e ∈ m := by
  induction m with
  | nil =>
    simp [jDel] at h
  | cons e0 rest ih =>
    by_cases hk : e0.1 = k
    · rw [jDel, if_pos hk] at h
      exact List.mem_cons_of_mem _ (ih h)
    · rw [jDel, if_neg hk] at h
      rcases List.mem_cons.mp h with h' | h'
      · exact h' ▸ List.mem_cons_self _ _
      · exact List.mem_cons_of_mem _ (ih h')

theorem length_jDel_le {β : Type} (m : JMap β) (k : String) :
    (jDel m k).length ≤ m.length := by
  induction m with
  | nil => simp [jDel]
  | cons e rest ih =>
    by_cases hk : e.1 = k
    · rw [jDel, if_pos hk]
      exact le_trans ih (Nat.le_succ _)
    · rw [jDel, if_neg hk, List.length_cons, List.length_cons]
      exact Nat.succ_le_succ ih

theorem mem_keys_of_jGet {β : Type} {m : JMap β} {k : String} {v : β}
    (h : jGet m k = some v) : k ∈ keys m :=
  List.mem_map.mpr ⟨(k, v), jGet_mem h, rfl⟩

theorem jGet_eq_none_of_not_mem {β : Type} {m : JMap β} {k : String}
    (h : k ∉ keys m) : jGet m k = none := by
  cases hg : jGet m k with
  | none => rfl
  | some v => exact absurd (mem_keys_of_jGet hg) h

theorem not_jHas_of_not_mem {β : Type} {m : JMap β} {k : String}
    (h : k ∉ keys m) : jHas m k = false := by
  rw [jHas_eq_isSome, jGet_eq_none_of_not_mem h]
  rfl

theorem jHas_of_jGet {β : Type} {m : JMap β} {k : String} {v : β}
    (h : jGet m k = some v) : jHas m k = true := by
  rw [jHas_eq_isSome, h]
  rfl

theorem nodup_keys_jSet {β : Type} {m : JMap β} (k : String) (v : β)
    (h : (keys m).Nodup) : (keys (jSet m k v)).Nodup := by
  rw [keys_jSet]
  by_cases hh : jHas m k
  · simpa [hh] using h
  · rw [if_neg hh]
    have hk : k ∉ keys m := fun hmem => hh ((jHas_iff_mem_keys m k).mpr hmem)
    simpa [List.nodup_append] using ⟨h, hk⟩

theorem keys_jDel_sublist {β : Type} (m : JMap β) (k : String) :
    (keys (jDel m k)).Sublist (keys m) := by
  induction m with
  | nil => simp [jDel, keys]
  | cons e rest ih =>
    by_cases hk : e.1 = k
    · rw [jDel, if_pos hk]
      exact List.Sublist.cons _ ih
    · rw [jDel, if_neg hk]
      exact List.Sublist.cons₂ _ ih

theorem nodup_keys_jDel {β : Type} {m : JMap β} (k : String)
    (h : (keys m).Nodup) : (keys (jDel m k)).Nodup :=
  (keys_jDel_sublist m k).nodup h

theorem jGet_of_mem_nodup {β : Type} {m : JMap β} {k : String} {v : β}
    (hn : (keys m).Nodup) (h : (k, v) ∈ m) : jGet m k = some v := by
  induction m with
  | nil => simp at h
  | cons e rest ih =>
    obtain ⟨k0, w⟩ := e
    have hn' : k0 ∉ keys rest ∧ (keys rest).Nodup := by
      rw [keys, List.map_cons] at hn
      exact List.nodup_cons.mp hn
    rcases List.mem_cons.mp h with h' | h'
    · injection h' with h1 h2
      rw [jGet, if_pos h1.symm, h2]
    · by_cases hk : k0 = k
      · exfalso
        have hkr : k ∈ keys rest := List.mem_map.mpr ⟨(k, v), h', rfl⟩
        rw [hk] at hn'
        exact hn'.1 hkr
      · rw [jGet, if_neg hk]
        exact ih hn'.2 h'

theorem jSet_self {β : Type} {m : JMap β} {k : String} {v : β}
    (h : jGet m k = some v) : jSet m k v = m := by
  induction m with
  | nil => simp [jGet] at h
  | cons e rest ih =>
    obtain ⟨k0, w⟩ := e
    by_cases hk : k0 = k
    · rw [jGet, if_pos hk] at h
      have hw : w = v := by injection h
      rw [jSet, if_pos hk, ← hk, ← hw]
    · rw [jGet, if_neg hk] at h
      rw [jSet, if_neg hk, ih h]

theorem jGet_map_value {β : Type} (m : JMap β) (f : β → β) (k : String) :
    jGet (m.map (fun e => (e.1, f e.2))) k = (jGet m k).map f := by
  induction m with
  | nil => rfl
  | cons e rest ih =>
    obtain ⟨k0, w⟩ := e
    by_cases hk : k0 = k
    · simp [jGet, hk]
    · simp only [List.map_cons, jGet, if_neg hk, ih]

theorem keys_map_value {β : Type} (m : JMap β) (f : β → β) :
    keys (m.map (fun e => (e.1, f e.2))) = keys m := by
  induction m with
  | nil => rfl
  | cons e rest ih =>
    unfold keys at *
    simp only [List.map_cons]
    rw [ih]

theorem keys_map_entry {β : Type} (m : JMap β) (f : String × β → β) :
    keys (m.map (fun e => (e.1, f e))) = keys m := by
  induction m with
  | nil => rfl
  | cons e rest ih =>
    unfold keys at *
    simp only [List.map_cons]
    rw [ih]

/-! ## Configuration (the source module's `CONFIG` constant) -/

def tickHz : ℤ := 15
noncomputable def dtClampSeconds : ℝ := 0.25
noncomputable def playerSpeed : ℝ := 4.0
noncomputable def enemySpeed : ℝ := 2.2
noncomputable def enemyChaseRange : ℝ := 12
def enemyCount : ℕ := 6
noncomputable def projectileSpeed : ℝ := 10.0
def maxProjectilesPerRoom : ℕ := 200
def fireballCastTimeMs : ℤ := 650
noncomputable def fireballDamage : ℝ := 12
def fireballLifetimeMs : ℤ := 2500

/-! ## Numeric helpers from the source -/

noncomputable def clamp (v lo hi : ℝ) : ℝ := max lo (min hi v)

noncomputable def len (x z : ℝ) : ℝ := Real.sqrt (x * x + z * z)

noncomputable def norm2 (x z : ℝ) : ℝ × ℝ :=
  let m := len x z
  if m < 1e-6 then (0, 0) else (x / m, z / m)

/-- JS `Math.atan2 y x` is the argument of the complex number `x + y*i`. -/
noncomputable def atan2 (y x : ℝ) : ℝ := Complex.arg ⟨x, y⟩

/-- Tick delta in seconds: `clamp((now - lastTick) / 1000, 0, dtClampSeconds)`. -/
noncomputable def computeDt (now lastTick : ℤ) : ℝ :=
  clamp (((now - lastTick : ℤ) : ℝ) / 1000) 0 dtClampSeconds

/-- JS truthiness of a nullable string: `null`/`undefined` and `""` are falsy. -/
def strTruthy : Option String → Option String
  | some s => if s = "" then none else some s
  | none => none

/-- JS `o || d` for a nullable string `o` and non-empty default `d`. -/
def strOrElse (o : Option String) (d : String) : String :=
  match strTruthy o with
  | some s => s
  | none => d

/-! ## Entity model -/

structure Cast where
  spellId : String
  targetEnemyId : Option String
  startAt : ℤ
  finishAt : ℤ
deriving DecidableEq

structure Player where
  socketId : String
  playerId : String
  name : String
  x : ℝ
  z : ℝ
  vx : ℝ
  vz : ℝ
  rotY : ℝ
  hp : ℝ
  maxHp : ℝ
  mana : ℝ
  maxMana : ℝ
  casts : List Cast

structure Enemy where
  enemyId : String
  x : ℝ
  z : ℝ
  vx : ℝ
  vz : ℝ
  rotY : ℝ
  state : String
  nextWanderAt : ℝ
  hp : ℝ
  maxHp : ℝ

structure Projectile where
  projId : String
  ptype : String
  x : ℝ
  z : ℝ
  vx : ℝ
  vz : ℝ
  rotY : ℝ
  ownerId : String
  targetEnemyId : Option String
  createdAt : ℤ
  expiresAt : ℤ
  damage : ℝ

structure Env where
  timeOfDay : ℝ
  weather : String

structure Room where
  players : JMap Player
  enemies : JMap Enemy
  projectiles : JMap Projectile
  env : Env

/-! ## Events (the `emitEvent` payloads, in emission order) -/

inductive GameEvent where
  | player_joined (playerId name : String)
  | player_left (playerId name : String)
  | cast_start (actorId spellId : String) (targetEnemyId : Option String) (castTimeMs : ℤ)
  | cast_finish (actorId spellId : String) (targetEnemyId : Option String)
  | spell_effect (actorId spellId note : String)
  | projectile_spawn (projId ptype ownerId targetEnemyId : String)
  | projectile_despawn (projId : String)
  | hit (projId ownerId targetType targetId : String)
  | damage (sourceId targetType targetId : String) (amount hp maxHp : ℝ)
  | enemy_death (enemyId : String)

def isCastFinishOf (pid : String) : GameEvent → Bool
  | .cast_finish a _ _ => a = pid
  | _ => false

def isDespawnOf (pid : String) : GameEvent → Bool
  | .projectile_despawn q => q = pid
  | _ => false

def isHitOf (pid : String) : GameEvent → Bool
  | .hit q _ _ _ => q = pid
  | _ => false

/-! ## Lookup helpers from the source -/

def findEnemy (room : Room) (enemyId : String) : Option Enemy :=
  jGet room.enemies enemyId

def findPlayerByPlayerId (room : Room) (playerId : String) : Option Player :=
  (room.players.find? (fun e => e.2.playerId = playerId)).map (fun e => e.2)

noncomputable def pickNearestPlayer (room : Room) (x z : ℝ) : Option Player :=
  (room.players.foldl
    (fun best e =>
      let p := e.2
      let dx := p.x - x
      let dz := p.z - z
      let d2 := dx * dx + dz * dz
      match best with
      | none => some (p, d2)
      | some (q, bd) => if d2 < bd then some (p, d2) else some (q, bd))
    none).map (fun b => b.1)

/-- The resolution of the acting player in the `action` handler:
`findPlayerByPlayerId(room, actorId) || room.players.get(socket.id)`. -/
def actorResolve (room : Room) (socketId : String) (actorId : Option String) : Option Player :=
  match (match actorId with
         | some a => findPlayerByPlayerId room a
         | none => none) with
  | some p => some p
  | none => jGet room.players socketId

/-- The capacity check of `spawnProjectile`: when the map already holds
more than `maxProjectilesPerRoom` entries, the first inserted key is
deleted (the JS code skips the delete when that key is falsy, i.e. the
empty string, or when the map is empty and `next()` yields no key). -/
def evictIfFull (projs : JMap Projectile) : JMap Projectile :=
  if projs.length > maxProjectilesPerRoom then
    match projs with
    | [] => []
    | e :: rest => if e.1 = "" then e :: rest else rest
  else projs

def spawnProjectile (room : Room) (proj : Projectile) : Room :=
  { room with projectiles := jSet (evictIfFull room.projectiles) proj.projId proj }

/-! ## Handlers -/

/-- One seeded enemy of `getRoom`; `rand i` supplies the two
`Math.random()` draws used for its position. -/
noncomputable def seedEnemy (rand : ℕ → ℝ × ℝ) (i : ℕ) : Enemy :=
  { enemyId := "e" ++ toString (i + 1)
    x := (rand i).1 * 20 - 10
    z := (rand i).2 * 20 - 10
    vx := 0, vz := 0, rotY := 0
    state := "wander"
    nextWanderAt := 0
    hp := 50, maxHp := 50 }

/-- The room created by `getRoom` on first reference. -/
noncomputable def getRoomFresh (rand : ℕ → ℝ × ℝ) : Room :=
  { players := []
    enemies := (List.range enemyCount).foldl
      (fun m i => jSet m ("e" ++ toString (i + 1)) (seedEnemy rand i)) []
    projectiles := []
    env := { timeOfDay := 12.0, weather := "clear" } }

/-- Per-room effect of the `joinRoom` handler: registers the player record
under the connection's socket id and emits `player_joined`. -/
noncomputable def joinPlayer (room : Room) (socketId : String)
    (playerId? name? : Option String) : Room × List GameEvent :=
  let pid := strOrElse playerId? socketId
  let pname := strOrElse name? "Player"
  let p : Player :=
    { socketId := socketId, playerId := pid, name := pname
      x := 0, z := 0, vx := 0, vz := 0, rotY := 0
      hp := 100, maxHp := 100, mana := 50, maxMana := 50, casts := [] }
  ({ room with players := jSet room.players socketId p },
   [.player_joined pid pname])

/-- Per-room effect of the `input` handler: overwrite each intent field that
arrived as a number (`some v`); leave absent or non-numeric fields
(`none`) unchanged; no-op when the player is unknown. -/
def inputRoom (room : Room) (socketId : String) (vx vz rotY : Option ℝ) : Room :=
  match jGet room.players socketId with
  | none => room
  | some p =>
    let p2 : Player :=
      { p with vx := vx.getD p.vx, vz := vz.getD p.vz, rotY := rotY.getD p.rotY }
    { room with players := jSet room.players socketId p2 }

/-- Registry-level `input` handler (in JS the room is mutated in place; the
functional translation writes the updated room back). -/
def applyInput (rooms : JMap Room) (socketId roomId : String)
    (vx vz rotY : Option ℝ) : JMap Room :=
  match jGet rooms roomId with
  | none => rooms
  | some room => jSet rooms roomId (inputRoom room socketId vx vz rotY)

structure ActionPayload where
  spellId : Option String
  targetEnemyId : Option String

/-- Per-room effect of the `action` handler. -/
noncomputable def actionRoom (room : Room) (socketId : String) (actorId : Option String)
    (atype : String) (payload : Option ActionPayload) (now : ℤ) :
    Room × List GameEvent :=
  match actorResolve room socketId actorId with
  | none => (room, [])
  | some actor =>
    if atype = "cast" then
      let spellId := strOrElse (payload.bind (fun pl => pl.spellId)) "fireball"
      let targetEnemyId := strTruthy (payload.bind (fun pl => pl.targetEnemyId))
      let c : Cast :=
        { spellId := spellId, targetEnemyId := targetEnemyId
          startAt := now, finishAt := now + fireballCastTimeMs }
      let actor2 : Player := { actor with casts := actor.casts ++ [c] }
      ({ room with players := jSet room.players actor.socketId actor2 },
       [.cast_start actor.playerId spellId targetEnemyId fireballCastTimeMs])
    else if atype = "attack" then
      match strTruthy (payload.bind (fun pl => pl.targetEnemyId)) with
      | none => (room, [])
      | some t =>
        match findEnemy room t with
        | none => (room, [])
        | some e =>
          let dmg : ℝ := 6
          let newHp := max 0 (e.hp - dmg)
          let e2 : Enemy := { e with hp := newHp }
          ({ room with enemies := jSet room.enemies t e2 },
           [GameEvent.damage actor.playerId "enemy" e.enemyId dmg newHp e.maxHp]
             ++ (if newHp ≤ 0 then [GameEvent.enemy_death e.enemyId] else []))
    else (room, [])

/-- Registry-level `action` handler. -/
noncomputable def applyAction (rooms : JMap Room) (socketId roomId : String)
    (actorId : Option String) (atype : String) (payload : Option ActionPayload)
    (now : ℤ) : JMap Room × List GameEvent :=
  match jGet rooms roomId with
  | none => (rooms, [])
  | some room =>
    let r := actionRoom room socketId actorId atype payload now
    (jSet rooms roomId r.1, r.2)

/-- The `disconnect` handler: scan rooms in registry order and handle only
the FIRST room containing the socket (the loop breaks after the first
match); delete the room if it became empty. Events are tagged with the
room they were emitted to. -/
def disconnect : JMap Room → String → JMap Room × List (String × GameEvent)
  | [], _ => ([], [])
  | (rid, room) :: rest, socketId =>
    match jGet room.players socketId with
    | some p =>
      let players := jDel room.players socketId
      let evs := [(rid, GameEvent.player_left p.playerId p.name)]
      if players.length = 0 then (rest, evs)
      else ((rid, { room with players := players }) :: rest, evs)
    | none =>
      let r := disconnect rest socketId
      ((rid, room) :: r.1, r.2)

/-! ## The tick loop -/

/-- Tick step 1 on one player: clamp the intent vector to unit length when
its length exceeds 1, then integrate position. -/
noncomputable def movePlayer (dt : ℝ) (p : Player) : Player :=
  let m := len p.vx p.vz
  let vx := if m > 1 then p.vx / m else p.vx
  let vz := if m > 1 then p.vz / m else p.vz
  { p with x := p.x + vx * playerSpeed * dt, z := p.z + vz * playerSpeed * dt }

noncomputable def stepPlayers (dt : ℝ) (room : Room) : Room :=
  { room with players := room.players.map (fun e => (e.1, movePlayer dt e.2)) }

/-- The two `Math.random()` draws an enemy may consume when re-rolling its
wander direction during one tick. -/
structure WanderDraw where
  angRand : ℝ
  delayRand : ℝ

/-- Tick step 2 on one enemy (the AI controller), reading the players of
`room` as they are after step 1. -/
noncomputable def stepEnemy (now : ℤ) (dt : ℝ) (room : Room) (draw : WanderDraw)
    (e : Enemy) : Enemy :=
  let e1 :=
    match pickNearestPlayer room e.x e.z with
    | none => { e with vx := 0, vz := 0, state := "idle" }
    | some target =>
      let dx := target.x - e.x
      let dz := target.z - e.z
      let dist := Real.sqrt (dx * dx + dz * dz)
      let e2 :=
        if dist < enemyChaseRange then
          let n := norm2 dx dz
          { e with state := "chase", vx := n.1, vz := n.2 }
        else
          let e3 := { e with state := "wander" }
          if e3.nextWanderAt = 0 ∨ (now : ℝ) ≥ e3.nextWanderAt then
            let ang := draw.angRand * Real.pi * 2
            { e3 with vx := Real.cos ang, vz := Real.sin ang,
                      nextWanderAt := (now : ℝ) + (800 + draw.delayRand * 1200) }
          else e3
      { e2 with rotY := atan2 e2.vx e2.vz }
  { e1 with x := e1.x + e1.vx * enemySpeed * dt, z := e1.z + e1.vz * enemySpeed * dt }

noncomputable def stepEnemies (now : ℤ) (dt : ℝ) (draws : String → WanderDraw)
    (room : Room) : Room :=
  { room with enemies := room.enemies.map (fun e => (e.1, stepEnemy now dt room (draws e.1) e.2)) }

/-- Projectile id `p_<ownerId>_<now>_<floor(r * 9999)>` for a raw
`Math.random()` draw `r`. -/
noncomputable def projIdOf (playerId : String) (now : ℤ) (r : ℝ) : String :=
  "p_" ++ playerId ++ "_" ++ toString now ++ "_" ++ toString ⌊r * 9999⌋

/-- State threaded through tick step 3: the room (projectiles get spawned
into it), the events emitted so far, and how many `Math.random()` draws the
step has consumed for projectile ids. -/
structure CastCtx where
  room : Room
  events : List GameEvent
  ctr : ℕ

/-- Resolution of a due cast's recorded target:
`c.targetEnemyId ? findEnemy(room, c.targetEnemyId) : null`. -/
def castTarget (room : Room) (c : Cast) : Option Enemy :=
  match strTruthy c.targetEnemyId with
  | some t => findEnemy room t
  | none => none

/-- Processing of one due cast of player `p` (tick step 3 body): emit
`cast_finish`; a fireball with a still-resolvable target spawns a projectile
aimed at the target's current position, otherwise a no-target
`spell_effect` is emitted. -/
noncomputable def resolveCast (now : ℤ) (projRand : ℕ → ℝ) (p : Player)
    (ctx : CastCtx) (c : Cast) : CastCtx :=
  let ctx1 : CastCtx :=
    { ctx with events := ctx.events ++ [.cast_finish p.playerId c.spellId c.targetEnemyId] }
  if c.spellId = "fireball" then
    match castTarget ctx1.room c with
    | some target =>
      let dx := target.x - p.x
      let dz := target.z - p.z
      let n := norm2 dx dz
      let r := projRand ctx1.ctr
      let projId := projIdOf p.playerId now r
      let proj : Projectile :=
        { projId := projId, ptype := "fireball"
          x := p.x, z := p.z
          vx := n.1 * projectileSpeed, vz := n.2 * projectileSpeed
          rotY := atan2 n.1 n.2
          ownerId := p.playerId
          targetEnemyId := some target.enemyId
          createdAt := now, expiresAt := now + fireballLifetimeMs
          damage := fireballDamage }
      { room := spawnProjectile ctx1.room proj
        events := ctx1.events ++ [.projectile_spawn projId "fireball" p.playerId target.enemyId]
        ctr := ctx1.ctr + 1 }
    | none =>
      { ctx1 with events := ctx1.events ++ [.spell_effect p.playerId "fireball" "no_target"] }
  else ctx1

/-- Tick step 3 for one player: process due casts in list order, keep the
pending ones (`now < finishAt`), and store the pending list back on the
player. -/
noncomputable def stepPlayerCasts (now : ℤ) (projRand : ℕ → ℝ) (acc : CastCtx)
    (k : String) (p : Player) : CastCtx :=
  if p.casts.length = 0 then acc
  else
    let due := p.casts.filter (fun c => !(now < c.finishAt : Bool))
    let remaining := p.casts.filter (fun c => (now < c.finishAt : Bool))
    let ctx := due.foldl (resolveCast now projRand p) acc
    let p2 : Player := { p with casts := remaining }
    { ctx with room := { ctx.room with players := jSet ctx.room.players k p2 } }

noncomputable def stepCasts (now : ℤ) (projRand : ℕ → ℝ) (room : Room) : CastCtx :=
  room.players.foldl (fun acc e => stepPlayerCasts now projRand acc e.1 e.2)
    { room := room, events := [], ctr := 0 }

/-- The in-place motion integration of tick step 4:
`proj.x += proj.vx * dt; proj.z += proj.vz * dt`. -/
noncomputable def moveProj (dt : ℝ) (pr0 : Projectile) : Projectile :=
  { pr0 with x := pr0.x + pr0.vx * dt, z := pr0.z + pr0.vz * dt }

theorem moveProj_expiresAt (dt : ℝ) (pr0 : Projectile) :
    (moveProj dt pr0).expiresAt = pr0.expiresAt := rfl

theorem moveProj_targetEnemyId (dt : ℝ) (pr0 : Projectile) :
    (moveProj dt pr0).targetEnemyId = pr0.targetEnemyId := rfl

theorem moveProj_damage (dt : ℝ) (pr0 : Projectile) :
    (moveProj dt pr0).damage = pr0.damage := rfl

theorem moveProj_x (dt : ℝ) (pr0 : Projectile) :
    (moveProj dt pr0).x = pr0.x + pr0.vx * dt := rfl

theorem moveProj_z (dt : ℝ) (pr0 : Projectile) :
    (moveProj dt pr0).z = pr0.z + pr0.vz * dt := rfl

/-- Resolution of a projectile's target in tick step 4, keeping the key the
enemy is stored under: `proj.targetEnemyId ? findEnemy(room, ...) : null`. -/
def projTarget (room : Room) (pr : Projectile) : Option (String × Enemy) :=
  match strTruthy pr.targetEnemyId with
  | some t => (findEnemy room t).map (fun e => (t, e))
  | none => none

/-- Tick step 4 body for one projectile: integrate motion (the JS code
mutates the stored object in place, so the moved projectile persists in the
map when it neither expires nor hits), then check expiry FIRST, then the
squared-distance hit test against the target enemy. -/
noncomputable def stepProj (now : ℤ) (dt : ℝ) (acc : Room × List GameEvent)
    (pid : String) (pr0 : Projectile) : Room × List GameEvent :=
  let room := acc.1
  let evs := acc.2
  let pr := moveProj dt pr0
  if now ≥ pr.expiresAt then
    ({ room with projectiles := jDel room.projectiles pid },
     evs ++ [.projectile_despawn pid])
  else
    match projTarget room pr with
    | some (t, e) =>
      let dx := e.x - pr.x
      let dz := e.z - pr.z
      if dx * dx + dz * dz < 0.6 * 0.6 then
        let newHp := max 0 (e.hp - pr.damage)
        let e2 : Enemy := { e with hp := newHp }
        let room2 := { room with enemies := jSet room.enemies t e2 }
        let room3 := { room2 with projectiles := jDel room2.projectiles pid }
        (room3,
         evs ++ [.hit pid pr.ownerId "enemy" e.enemyId,
                 .damage pr.ownerId "enemy" e.enemyId pr.damage newHp e.maxHp,
                 .projectile_despawn pid]
             ++ (if newHp ≤ 0 then [.enemy_death e.enemyId] else []))
      else ({ room with projectiles := jSet room.projectiles pid pr }, evs)
    | none => ({ room with projectiles := jSet room.projectiles pid pr }, evs)

noncomputable def stepProjectiles (now : ℤ) (dt : ℝ) (room : Room) :
    Room × List GameEvent :=
  room.projectiles.foldl (fun acc e => stepProj now dt acc e.1 e.2) (room, [])

/-- One tick of the main loop for one room, given the tick timestamp `now`,
the clamped delta `dt`, and the random oracles. The returned event list is
in emission order (step 3 events, then step 4 events). -/
noncomputable def tickRoom (now : ℤ) (dt : ℝ) (draws : String → WanderDraw)
    (projRand : ℕ → ℝ) (room : Room) : Room × List GameEvent :=
  let r1 := stepPlayers dt room
  let r2 := stepEnemies now dt draws r1
  let c3 := stepCasts now projRand r2
  let r4 := stepProjectiles now dt c3.room
  (r4.1, c3.events ++ r4.2)

/-! ## Reachable rooms and their invariants -/

def seedKeys : List String := (List.range enemyCount).map (fun i => "e" ++ toString (i + 1))

theorem seedKeys_eq : seedKeys = ["e1", "e2", "e3", "e4", "e5", "e6"] := rfl

/-- Structural invariants of every room the program can actually build. -/
structure GoodRoom (room : Room) : Prop where
  enemyKeys : keys room.enemies = seedKeys
  enemyHp : ∀ e ∈ room.enemies, 0 ≤ e.2.hp ∧ e.2.hp ≤ e.2.maxHp ∧ e.2.maxHp = 50
  projDamage : ∀ pr ∈ room.projectiles, pr.2.damage = fireballDamage
  projKeys : ∀ pr ∈ room.projectiles, pr.1 ≠ ""
  projNodup : (keys room.projectiles).Nodup
  projCount : room.projectiles.length ≤ maxProjectilesPerRoom + 1

/-- Rooms reachable by the program: freshly seeded by `getRoom`, then
transformed by the handlers and the tick. -/
inductive Reachable : Room → Prop where
  | seed (rand : ℕ → ℝ × ℝ) : Reachable (getRoomFresh rand)
  | join (room : Room) (sid : String) (pid nm : Option String) (h : Reachable room) :
      Reachable (joinPlayer room sid pid nm).1
  | move (room : Room) (sid : String) (vx vz rotY : Option ℝ) (h : Reachable room) :
      Reachable (inputRoom room sid vx vz rotY)
  | act (room : Room) (sid : String) (actorId : Option String) (atype : String)
      (payload : Option ActionPayload) (now : ℤ) (h : Reachable room) :
      Reachable (actionRoom room sid actorId atype payload now).1
  | leave (room : Room) (sid : String) (h : Reachable room) :
      Reachable { room with players := jDel room.players sid }
  | tick (room : Room) (now : ℤ) (dt : ℝ) (draws : String → WanderDraw)
      (projRand : ℕ → ℝ) (h : Reachable room) :
      Reachable (tickRoom now dt draws projRand room).1

theorem getRoomFresh_enemies (rand : ℕ → ℝ × ℝ) :
    (getRoomFresh rand).enemies =
      (List.range enemyCount).map (fun i => ("e" ++ toString (i + 1), seedEnemy rand i)) := rfl

theorem good_getRoomFresh (rand : ℕ → ℝ × ℝ) : GoodRoom (getRoomFresh rand) := by
  constructor
  · rfl
  · intro e he
    rw [getRoomFresh_enemies] at he
    obtain ⟨i, _, hei⟩ := List.mem_map.mp he
    rw [← hei]
    refine ⟨by norm_num [seedEnemy], by norm_num [seedEnemy], by norm_num [seedEnemy]⟩
  · intro pr hpr
    simp [getRoomFresh] at hpr
  · intro pr hpr
    simp [getRoomFresh] at hpr
  · simp [getRoomFresh, keys]
  · simp [getRoomFresh]

theorem projIdOf_ne_empty (playerId : String) (now : ℤ) (r : ℝ) :
    projIdOf playerId now r ≠ "" := by
  intro h
  have hlen := congrArg String.length h
  simp only [projIdOf, String.length_append] at hlen
  have h2 : ("p_".length) = 2 := rfl
  have h0 : ("".length) = 0 := rfl
  omega

theorem evictIfFull_sub {projs : JMap Projectile} {e : String × Projectile}
    (h : e ∈ evictIfFull projs) : e ∈ projs := by
  unfold evictIfFull at h
  by_cases hl : projs.length > maxProjectilesPerRoom
  · rw [if_pos hl] at h
    cases projs with
    | nil => simp at h
    | cons e0 rest =>
      simp only [] at h
      by_cases hk : e0.1 = ""
      · rwa [if_pos hk] at h
      · rw [if_neg hk] at h
        exact List.mem_cons_of_mem _ h
  · rwa [if_neg hl] at h

theorem evictIfFull_keys_sublist (projs : JMap Projectile) :
    (keys (evictIfFull projs)).Sublist (keys projs) := by
  unfold evictIfFull
  by_cases hl : projs.length > maxProjectilesPerRoom
  · rw [if_pos hl]
    cases projs with
    | nil => simp
    | cons e0 rest =>
      simp only []
      by_cases hk : e0.1 = ""
      · rw [if_pos hk]
      · rw [if_neg hk]
        exact (List.sublist_cons_self _ _).map _
  · rw [if_neg hl]

theorem evictIfFull_length {projs : JMap Projectile}
    (hkeys : ∀ e ∈ projs, e.1 ≠ "")
    (hlen : projs.length ≤ maxProjectilesPerRoom + 1) :
    (evictIfFull projs).length ≤ maxProjectilesPerRoom := by
  unfold evictIfFull
  by_cases hl : projs.length > maxProjectilesPerRoom
  · rw [if_pos hl]
    cases projs with
    | nil => simp
    | cons e0 rest =>
      simp only []
      have hk : e0.1 ≠ "" := hkeys e0 (List.mem_cons_self _ _)
      rw [if_neg hk]
      have hr : rest.length + 1 ≤ maxProjectilesPerRoom + 1 := by
        simpa using hlen
      omega
  · rw [if_neg hl]
    omega

theorem good_spawnProjectile {room : Room} {proj : Projectile}
    (h : GoodRoom room) (hd : proj.damage = fireballDamage)
    (hk : proj.projId ≠ "") : GoodRoom (spawnProjectile room proj) where
  enemyKeys := h.enemyKeys
  enemyHp := h.enemyHp
  projDamage := by
    intro pr hpr
    rcases mem_jSet hpr with h' | h'
    · rw [h']
      exact hd
    · exact h.projDamage _ (evictIfFull_sub h')
  projKeys := by
    intro pr hpr
    rcases mem_jSet hpr with h' | h'
    · rw [h']
      exact hk
    · exact h.projKeys _ (evictIfFull_sub h')
  projNodup := by
    apply nodup_keys_jSet
    exact (evictIfFull_keys_sublist room.projectiles).nodup h.projNodup
  projCount := by
    show (jSet (evictIfFull room.projectiles) proj.projId proj).length ≤ _
    rw [length_jSet]
    have := evictIfFull_length h.projKeys h.projCount
    by_cases hh : jHas (evictIfFull room.projectiles) proj.projId
    · rw [if_pos hh]
      omega
    · rw [if_neg hh]
      omega

theorem stepEnemy_hp (now : ℤ) (dt : ℝ) (room : Room) (draw : WanderDraw) (e : Enemy) :
    (stepEnemy now dt room draw e).hp = e.hp ∧
    (stepEnemy now dt room draw e).maxHp = e.maxHp := by
  unfold stepEnemy
  cases pickNearestPlayer room e.x e.z with
  | none => simp
  | some target =>
    simp only
    split
    · simp
    · split
      · simp
      · simp

theorem spawnProjectile_players (room : Room) (proj : Projectile) :
    (spawnProjectile room proj).players = room.players := rfl

theorem spawnProjectile_enemies (room : Room) (proj : Projectile) :
    (spawnProjectile room proj).enemies = room.enemies := rfl

theorem resolveCast_players (now : ℤ) (projRand : ℕ → ℝ) (p : Player)
    (ctx : CastCtx) (c : Cast) :
    (resolveCast now projRand p ctx c).room.players = ctx.room.players := by
  unfold resolveCast
  by_cases hs : c.spellId = "fireball"
  · rw [if_pos hs]
    cases castTarget ctx.room c with
    | none => rfl
    | some target => rfl
  · rw [if_neg hs]

theorem resolveCast_enemies (now : ℤ) (projRand : ℕ → ℝ) (p : Player)
    (ctx : CastCtx) (c : Cast) :
    (resolveCast now projRand p ctx c).room.enemies = ctx.room.enemies := by
  unfold resolveCast
  by_cases hs : c.spellId = "fireball"
  · rw [if_pos hs]
    cases castTarget ctx.room c with
    | none => rfl
    | some target => rfl
  · rw [if_neg hs]

theorem good_resolveCast {now : ℤ} {projRand : ℕ → ℝ} {p : Player}
    {ctx : CastCtx} {c : Cast} (h : GoodRoom ctx.room) :
    GoodRoom (resolveCast now projRand p ctx c).room := by
  unfold resolveCast
  by_cases hs : c.spellId = "fireball"
  · rw [if_pos hs]
    cases castTarget ctx.room c with
    | none => exact h
    | some target => exact good_spawnProjectile h rfl (projIdOf_ne_empty _ _ _)
  · rw [if_neg hs]
    exact h

theorem dueFold_players (now : ℤ) (projRand : ℕ → ℝ) (p : Player) :
    ∀ (due : List Cast) (ctx : CastCtx),
      ((due.foldl (resolveCast now projRand p) ctx).room.players) = ctx.room.players := by
  intro due
  induction due with
  | nil => intro ctx; rfl
  | cons c rest ih =>
    intro ctx
    rw [List.foldl_cons, ih, resolveCast_players]

theorem dueFold_enemies (now : ℤ) (projRand : ℕ → ℝ) (p : Player) :
    ∀ (due : List Cast) (ctx : CastCtx),
      ((due.foldl (resolveCast now projRand p) ctx).room.enemies) = ctx.room.enemies := by
  intro due
  induction due with
  | nil => intro ctx; rfl
  | cons c rest ih =>
    intro ctx
    rw [List.foldl_cons, ih, resolveCast_enemies]

theorem good_dueFold {now : ℤ} {projRand : ℕ → ℝ} {p : Player} :
    ∀ (due : List Cast) (ctx : CastCtx), GoodRoom ctx.room →
      GoodRoom ((due.foldl (resolveCast now projRand p) ctx).room) := by
  intro due
  induction due with
  | nil => intro ctx h; exact h
  | cons c rest ih =>
    intro ctx h
    rw [List.foldl_cons]
    exact ih _ (good_resolveCast h)

theorem stepPlayerCasts_enemies (now : ℤ) (projRand : ℕ → ℝ) (acc : CastCtx)
    (k : String) (p : Player) :
    (stepPlayerCasts now projRand acc k p).room.enemies = acc.room.enemies := by
  unfold stepPlayerCasts
  by_cases h0 : p.casts.length = 0
  · rw [if_pos h0]
  · rw [if_neg h0]
    simp only
    rw [dueFold_enemies]

theorem good_stepPlayerCasts {now : ℤ} {projRand : ℕ → ℝ} {acc : CastCtx}
    {k : String} {p : Player} (h : GoodRoom acc.room) :
    GoodRoom (stepPlayerCasts now projRand acc k p).room := by
  unfold stepPlayerCasts
  by_cases h0 : p.casts.length = 0
  · rw [if_pos h0]
    exact h
  · rw [if_neg h0]
    simp only
    have hg := @good_dueFold now projRand p
      (p.casts.filter (fun c => !(now < c.finishAt : Bool))) acc h
    exact { hg with
      projDamage := hg.projDamage
      projKeys := hg.projKeys }

theorem stepCasts_enemies (now : ℤ) (projRand : ℕ → ℝ) (room : Room) :
    (stepCasts now projRand room).room.enemies = room.enemies := by
  unfold stepCasts
  suffices h : ∀ (todo : List (String × Player)) (acc : CastCtx),
      ((todo.foldl (fun a e => stepPlayerCasts now projRand a e.1 e.2) acc).room.enemies)
        = acc.room.enemies by
    exact h room.players _
  intro todo
  induction todo with
  | nil => intro acc; rfl
  | cons e rest ih =>
    intro acc
    rw [List.foldl_cons, ih, stepPlayerCasts_enemies]

theorem good_stepCasts {now : ℤ} {projRand : ℕ → ℝ} {room : Room}
    (h : GoodRoom room) : GoodRoom (stepCasts now projRand room).room := by
  unfold stepCasts
  suffices hs : ∀ (todo : List (String × Player)) (acc : CastCtx), GoodRoom acc.room →
      GoodRoom ((todo.foldl (fun a e => stepPlayerCasts now projRand a e.1 e.2) acc).room) by
    exact hs room.players _ h
  intro todo
  induction todo with
  | nil => intro acc hacc; exact hacc
  | cons e rest ih =>
    intro acc hacc
    rw [List.foldl_cons]
    exact ih _ (good_stepPlayerCasts hacc)

theorem key_ne_empty_of_jHas {room : Room} {pid : String} (h : GoodRoom room)
    (hh : jHas room.projectiles pid = true) : pid ≠ "" := by
  obtain ⟨e, he, hek⟩ := List.mem_map.mp ((jHas_iff_mem_keys _ _).mp hh)
  exact hek ▸ h.projKeys e he

theorem stepProj_players (now : ℤ) (dt : ℝ) (room : Room) (evs : List GameEvent)
    (pid : String) (pr0 : Projectile) :
    (stepProj now dt (room, evs) pid pr0).1.players = room.players := by
  unfold stepProj
  simp only [moveProj_expiresAt]
  by_cases hexp : now ≥ pr0.expiresAt
  · rw [if_pos hexp]
  · rw [if_neg hexp]
    cases hpt : projTarget room (moveProj dt pr0) with
    | none => rfl
    | some te =>
      obtain ⟨t, e⟩ := te
      simp only
      by_cases hdist : (e.x - (moveProj dt pr0).x) * (e.x - (moveProj dt pr0).x) +
          (e.z - (moveProj dt pr0).z) * (e.z - (moveProj dt pr0).z) < 0.6 * 0.6
      · rw [if_pos hdist]
      · rw [if_neg hdist]

theorem stepProj_events_cast_free (now : ℤ) (dt : ℝ) (room : Room)
    (evs : List GameEvent) (pid : String) (pr0 : Projectile) (q : String) :
    ((stepProj now dt (room, evs) pid pr0).2.countP (isCastFinishOf q))
      = evs.countP (isCastFinishOf q) := by
  unfold stepProj
  simp only [moveProj_expiresAt]
  by_cases hexp : now ≥ pr0.expiresAt
  · rw [if_pos hexp]
    simp [List.countP_append, isCastFinishOf]
  · rw [if_neg hexp]
    cases hpt : projTarget room (moveProj dt pr0) with
    | none => rfl
    | some te =>
      obtain ⟨t, e⟩ := te
      simp only
      by_cases hdist : (e.x - (moveProj dt pr0).x) * (e.x - (moveProj dt pr0).x) +
          (e.z - (moveProj dt pr0).z) * (e.z - (moveProj dt pr0).z) < 0.6 * 0.6
      · rw [if_pos hdist]
        by_cases hhp : max 0 (e.hp - (moveProj dt pr0).damage) ≤ 0
        · simp [hhp, List.countP_append, isCastFinishOf, List.countP_cons]
        · simp [hhp, List.countP_append, isCastFinishOf, List.countP_cons]
      · rw [if_neg hdist]

theorem good_stepProj {now : ℤ} {dt : ℝ} {room : Room} {evs : List GameEvent}
    {pid : String} {pr0 : Projectile} (h : GoodRoom room)
    (hdmg : pr0.damage = fireballDamage)
    (hjh : jHas room.projectiles pid = true) :
    GoodRoom (stepProj now dt (room, evs) pid pr0).1 ∧
    (∀ k, k ≠ pid → jHas (stepProj now dt (room, evs) pid pr0).1.projectiles k
        = jHas room.projectiles k) := by
  have hdel : GoodRoom { room with projectiles := jDel room.projectiles pid } := by
    refine ⟨h.enemyKeys, h.enemyHp, ?_, ?_, nodup_keys_jDel _ h.projNodup, ?_⟩
    · intro pr hpr
      exact h.projDamage _ (mem_jDel hpr)
    · intro pr hpr
      exact h.projKeys _ (mem_jDel hpr)
    · exact le_trans (length_jDel_le _ _) h.projCount
  have hdelHas : ∀ k, k ≠ pid → jHas (jDel room.projectiles pid) k = jHas room.projectiles k := by
    intro k hk
    rw [jHas_eq_isSome, jHas_eq_isSome, jGet_jDel, if_neg hk]
  unfold stepProj
  simp only [moveProj_expiresAt]
  by_cases hexp : now ≥ pr0.expiresAt
  · rw [if_pos hexp]
    exact ⟨hdel, hdelHas⟩
  · rw [if_neg hexp]
    cases hpt : projTarget room (moveProj dt pr0) with
    | none =>
      constructor
      · refine ⟨h.enemyKeys, h.enemyHp, ?_, ?_, nodup_keys_jSet _ _ h.projNodup, ?_⟩
        · intro pr hpr
          rcases mem_jSet hpr with h' | h'
          · rw [h']
            exact hdmg
          · exact h.projDamage _ h'
        · intro pr hpr
          rcases mem_jSet hpr with h' | h'
          · rw [h']
            exact key_ne_empty_of_jHas h hjh
          · exact h.projKeys _ h'
        · show (jSet room.projectiles pid _).length ≤ _
          rw [length_jSet, if_pos hjh]
          exact h.projCount
      · intro k hk
        rw [jHas_eq_isSome, jHas_eq_isSome, jGet_jSet_ne _ _ _ _ hk]
    | some te =>
      obtain ⟨t, e⟩ := te
      simp only
      have hfe : findEnemy room t = some e := by
        unfold projTarget at hpt
        rw [moveProj_targetEnemyId] at hpt
        cases hst : strTruthy pr0.targetEnemyId with
        | none =>
          rw [hst] at hpt
          simp at hpt
        | some t' =>
          rw [hst] at hpt
          simp only [] at hpt
          cases hfe' : findEnemy room t' with
          | none =>
            rw [hfe'] at hpt
            simp at hpt
          | some e' =>
            rw [hfe'] at hpt
            simp at hpt
            obtain ⟨h1, h2⟩ := hpt
            rw [← h1, hfe', h2]
      have hte : (t, e) ∈ room.enemies := jGet_mem hfe
      have hthas : jHas room.enemies t = true := jHas_of_jGet hfe
      have hebounds := h.enemyHp _ hte
      by_cases hdist : (e.x - (moveProj dt pr0).x) * (e.x - (moveProj dt pr0).x) +
          (e.z - (moveProj dt pr0).z) * (e.z - (moveProj dt pr0).z) < 0.6 * 0.6
      · rw [if_pos hdist]
        constructor
        · refine ⟨?_, ?_, hdel.projDamage, hdel.projKeys, hdel.projNodup, hdel.projCount⟩
          · show keys (jSet room.enemies t _) = seedKeys
            rw [keys_jSet, if_pos hthas]
            exact h.enemyKeys
          · intro e' he'
            rcases mem_jSet he' with h' | h'
            · rw [h']
              refine ⟨le_max_left _ _, ?_, hebounds.2.2⟩
              show max 0 (e.hp - (moveProj dt pr0).damage) ≤ e.maxHp
              rw [moveProj_damage]
              apply max_le
              · rw [hebounds.2.2]
                norm_num
              · have : (0 : ℝ) ≤ pr0.damage := by
                  rw [hdmg]
                  norm_num [fireballDamage]
                linarith [hebounds.2.1]
            · exact h.enemyHp _ h'
        · exact hdelHas
      · rw [if_neg hdist]
        constructor
        · refine ⟨h.enemyKeys, h.enemyHp, ?_, ?_, nodup_keys_jSet _ _ h.projNodup, ?_⟩
          · intro pr hpr
            rcases mem_jSet hpr with h' | h'
            · rw [h']
              exact hdmg
            · exact h.projDamage _ h'
          · intro pr hpr
            rcases mem_jSet hpr with h' | h'
            · rw [h']
              exact key_ne_empty_of_jHas h hjh
            · exact h.projKeys _ h'
          · show (jSet room.projectiles pid _).length ≤ _
            rw [length_jSet, if_pos hjh]
            exact h.projCount
        · intro k hk
          rw [jHas_eq_isSome, jHas_eq_isSome, jGet_jSet_ne _ _ _ _ hk]

theorem good_projFold {now : ℤ} {dt : ℝ} :
    ∀ (todo : List (String × Projectile)) (room : Room) (evs : List GameEvent),
      GoodRoom room →
      (∀ e ∈ todo, e.2.damage = fireballDamage) →
      (∀ e ∈ todo, jHas room.projectiles e.1 = true) →
      (keys (todo : JMap Projectile)).Nodup →
      GoodRoom ((todo.foldl (fun acc e => stepProj now dt acc e.1 e.2) (room, evs)).1) := by
  intro todo
  induction todo with
  | nil => intro room evs h _ _ _; exact h
  | cons e0 rest ih =>
    intro room evs h hdmg hjh hnd
    rw [List.foldl_cons]
    have hstep := @good_stepProj now dt room evs e0.1 e0.2 h
      (hdmg e0 (List.mem_cons_self _ _)) (hjh e0 (List.mem_cons_self _ _))
    have hrw : stepProj now dt (room, evs) e0.1 e0.2
        = ((stepProj now dt (room, evs) e0.1 e0.2).1,
           (stepProj now dt (room, evs) e0.1 e0.2).2) := rfl
    rw [hrw]
    apply ih
    · exact hstep.1
    · intro e he
      exact hdmg e (List.mem_cons_of_mem _ he)
    · intro e he
      have hnd' : e0.1 ∉ keys rest ∧ (keys rest).Nodup := by
        rw [keys, List.map_cons] at hnd
        exact List.nodup_cons.mp hnd
      have hne : e.1 ≠ e0.1 := by
        intro hc
        exact hnd'.1 (hc ▸ List.mem_map.mpr ⟨e, he, rfl⟩)
      rw [hstep.2 e.1 hne]
      exact hjh e (List.mem_cons_of_mem _ he)
    · have hnd' : e0.1 ∉ keys rest ∧ (keys rest).Nodup := by
        rw [keys, List.map_cons] at hnd
        exact List.nodup_cons.mp hnd
      exact hnd'.2

theorem good_stepProjectiles {now : ℤ} {dt : ℝ} {room : Room}
    (h : GoodRoom room) : GoodRoom (stepProjectiles now dt room).1 := by
  unfold stepProjectiles
  apply good_projFold room.projectiles room [] h h.projDamage
  · intro e he
    exact (jHas_iff_mem_keys _ _).mpr (List.mem_map.mpr ⟨e, he, rfl⟩)
  · exact h.projNodup

theorem good_stepPlayers {dt : ℝ} {room : Room} (h : GoodRoom room) :
    GoodRoom (stepPlayers dt room) :=
  ⟨h.enemyKeys, h.enemyHp, h.projDamage, h.projKeys, h.projNodup, h.projCount⟩

theorem good_stepEnemies {now : ℤ} {dt : ℝ} {draws : String → WanderDraw} {room : Room}
    (h : GoodRoom room) : GoodRoom (stepEnemies now dt draws room) := by
  refine ⟨?_, ?_, h.projDamage, h.projKeys, h.projNodup, h.projCount⟩
  · show keys (room.enemies.map _) = seedKeys
    rw [keys_map_entry]
    exact h.enemyKeys
  · intro e he
    obtain ⟨e0, he0, hmap⟩ := List.mem_map.mp he
    obtain ⟨hp, hmax⟩ := stepEnemy_hp now dt room (draws e0.1) e0.2
    have hb := h.enemyHp e0 he0
    rw [← hmap]
    simp only
    rw [hp, hmax]
    exact hb

theorem good_tickRoom {now : ℤ} {dt : ℝ} {draws : String → WanderDraw}
    {projRand : ℕ → ℝ} {room : Room} (h : GoodRoom room) :
    GoodRoom (tickRoom now dt draws projRand room).1 := by
  unfold tickRoom
  exact good_stepProjectiles (good_stepCasts (good_stepEnemies (good_stepPlayers h)))

theorem good_joinPlayer {room : Room} {sid : String} {pid nm : Option String}
    (h : GoodRoom room) : GoodRoom (joinPlayer room sid pid nm).1 :=
  ⟨h.enemyKeys, h.enemyHp, h.projDamage, h.projKeys, h.projNodup, h.projCount⟩

theorem good_inputRoom {room : Room} {sid : String} {vx vz rotY : Option ℝ}
    (h : GoodRoom room) : GoodRoom (inputRoom room sid vx vz rotY) := by
  unfold inputRoom
  cases jGet room.players sid with
  | none => exact h
  | some p => exact ⟨h.enemyKeys, h.enemyHp, h.projDamage, h.projKeys, h.projNodup, h.projCount⟩

theorem good_actionRoom {room : Room} {sid : String} {actorId : Option String}
    {atype : String} {payload : Option ActionPayload} {now : ℤ}
    (h : GoodRoom room) : GoodRoom (actionRoom room sid actorId atype payload now).1 := by
  unfold actionRoom
  cases actorResolve room sid actorId with
  | none => exact h
  | some actor =>
    simp only
    by_cases hc : atype = "cast"
    · rw [if_pos hc]
      exact ⟨h.enemyKeys, h.enemyHp, h.projDamage, h.projKeys, h.projNodup, h.projCount⟩
    · rw [if_neg hc]
      by_cases ha : atype = "attack"
      · rw [if_pos ha]
        cases strTruthy (payload.bind (fun pl => pl.targetEnemyId)) with
        | none => exact h
        | some t =>
          simp only []
          cases hfe : findEnemy room t with
          | none => exact h
          | some e =>
            simp only
            have hte : (t, e) ∈ room.enemies := jGet_mem hfe
            have hthas : jHas room.enemies t = true := jHas_of_jGet hfe
            have hb := h.enemyHp _ hte
            refine ⟨?_, ?_, h.projDamage, h.projKeys, h.projNodup, h.projCount⟩
            · show keys (jSet room.enemies t _) = seedKeys
              rw [keys_jSet, if_pos hthas]
              exact h.enemyKeys
            · intro e2 he2
              rcases mem_jSet he2 with h2 | h2
              · rw [h2]
                refine ⟨le_max_left _ _, ?_, hb.2.2⟩
                show max 0 (e.hp - 6) ≤ e.maxHp
                apply max_le
                · rw [hb.2.2]
                  norm_num
                · linarith [hb.2.1]
              · exact h.enemyHp _ h2
      · rw [if_neg ha]
        exact h

theorem good_leave {room : Room} {sid : String} (h : GoodRoom room) :
    GoodRoom { room with players := jDel room.players sid } :=
  ⟨h.enemyKeys, h.enemyHp, h.projDamage, h.projKeys, h.projNodup, h.projCount⟩

/-- Every reachable room satisfies the structural invariants. -/
theorem reachable_good {room : Room} (h : Reachable room) : GoodRoom room := by
  induction h with
  | seed rand => exact good_getRoomFresh rand
  | join room sid pid nm _ ih => exact good_joinPlayer ih
  | move room sid vx vz rotY _ ih => exact good_inputRoom ih
  | act room sid actorId atype payload now _ ih => exact good_actionRoom ih
  | leave room sid _ ih => exact good_leave ih
  | tick room now dt draws projRand _ ih => exact good_tickRoom ih

/-! ## Pointwise characterization of the tick steps -/

theorem player_set_casts_self (p : Player) : { p with casts := p.casts } = p := rfl

theorem stepPlayerCasts_players_eq (now : ℤ) (projRand : ℕ → ℝ) (acc : CastCtx)
    (k0 : String) (p0 : Player) :
    (stepPlayerCasts now projRand acc k0 p0).room.players
      = if p0.casts.length = 0 then acc.room.players
        else jSet acc.room.players k0
          ({ p0 with casts := p0.casts.filter (fun c => (now < c.finishAt : Bool)) }) := by
  unfold stepPlayerCasts
  by_cases h0 : p0.casts.length = 0
  · rw [if_pos h0, if_pos h0]
  · rw [if_neg h0, if_neg h0]
    simp only
    rw [dueFold_players]

theorem stepCastsAux (now : ℤ) (projRand : ℕ → ℝ) :
    ∀ (todo : List (String × Player)) (acc : CastCtx),
      (keys (todo : JMap Player)).Nodup →
      (∀ e ∈ todo, jGet acc.room.players e.1 = some e.2) →
      ∀ k, jGet ((todo.foldl (fun a e => stepPlayerCasts now projRand a e.1 e.2) acc).room.players) k
        = match jGet (todo : JMap Player) k with
          | some p => some { p with casts := p.casts.filter (fun c => (now < c.finishAt : Bool)) }
          | none => jGet acc.room.players k := by
  intro todo
  induction todo with
  | nil =>
    intro acc _ _ k
    rfl
  | cons e0 rest ih =>
    intro acc hnd hvals k
    obtain ⟨k0, p0⟩ := e0
    have hnd' : k0 ∉ keys rest ∧ (keys rest).Nodup := by
      rw [keys, List.map_cons] at hnd
      exact List.nodup_cons.mp hnd
    have hvals' : ∀ e ∈ rest,
        jGet (stepPlayerCasts now projRand acc k0 p0).room.players e.1 = some e.2 := by
      intro e he
      have hne : e.1 ≠ k0 := fun hc => hnd'.1 (hc ▸ List.mem_map.mpr ⟨e, he, rfl⟩)
      rw [stepPlayerCasts_players_eq]
      by_cases h0 : p0.casts.length = 0
      · rw [if_pos h0]
        exact hvals e (List.mem_cons_of_mem _ he)
      · rw [if_neg h0, jGet_jSet_ne _ _ _ _ hne]
        exact hvals e (List.mem_cons_of_mem _ he)
    rw [List.foldl_cons, ih _ hnd'.2 hvals' k]
    by_cases hk : k0 = k
    · subst hk
      have hrest : jGet (rest : JMap Player) k0 = none :=
        jGet_eq_none_of_not_mem hnd'.1
      rw [hrest, jGet, if_pos rfl]
      simp only
      rw [stepPlayerCasts_players_eq]
      by_cases h0 : p0.casts.length = 0
      · rw [if_pos h0]
        have hcs : p0.casts = [] := List.length_eq_zero.mp h0
        have hfi : p0.casts.filter (fun c => (now < c.finishAt : Bool)) = p0.casts := by
          rw [hcs]
          rfl
        rw [hfi]
        exact hvals (k0, p0) (List.mem_cons_self _ _)
      · rw [if_neg h0, jGet_jSet_self]
    · rw [jGet, if_neg hk]
      cases hrest : jGet (rest : JMap Player) k with
      | some p => rfl
      | none =>
        simp only
        rw [stepPlayerCasts_players_eq]
        by_cases h0 : p0.casts.length = 0
        · rw [if_pos h0]
        · rw [if_neg h0, jGet_jSet_ne _ _ _ _ (fun hc : k = k0 => hk hc.symm)]

theorem stepCasts_players_jGet (now : ℤ) (projRand : ℕ → ℝ) (room : Room)
    (hn : (keys room.players).Nodup) (k : String) :
    jGet (stepCasts now projRand room).room.players k
      = (jGet room.players k).map
          (fun p => { p with casts := p.casts.filter (fun c => (now < c.finishAt : Bool)) }) := by
  unfold stepCasts
  rw [stepCastsAux now projRand room.players { room := room, events := [], ctr := 0 } hn
    (fun e he => jGet_of_mem_nodup hn he) k]
  cases jGet room.players k with
  | some p => rfl
  | none => rfl

theorem resolveCast_events_count (now : ℤ) (projRand : ℕ → ℝ) (p : Player)
    (ctx : CastCtx) (c : Cast) (q : String) :
    ((resolveCast now projRand p ctx c).events.countP (isCastFinishOf q))
      = ctx.events.countP (isCastFinishOf q) + (if p.playerId = q then 1 else 0) := by
  have hone : ∀ evs : List GameEvent,
      (evs ++ [GameEvent.cast_finish p.playerId c.spellId c.targetEnemyId]).countP
        (isCastFinishOf q)
      = evs.countP (isCastFinishOf q) + (if p.playerId = q then 1 else 0) := by
    intro evs
    rw [List.countP_append]
    by_cases hq : p.playerId = q
    · simp [isCastFinishOf, hq]
    · simp [isCastFinishOf, hq]
  unfold resolveCast
  by_cases hs : c.spellId = "fireball"
  · rw [if_pos hs]
    cases castTarget ctx.room c with
    | some target =>
      simp only
      rw [List.countP_append, hone]
      simp [isCastFinishOf]
    | none =>
      simp only
      rw [List.countP_append, hone]
      simp [isCastFinishOf]
  · rw [if_neg hs]
    exact hone ctx.events

theorem dueFold_events_count (now : ℤ) (projRand : ℕ → ℝ) (p : Player) (q : String) :
    ∀ (due : List Cast) (ctx : CastCtx),
      ((due.foldl (resolveCast now projRand p) ctx).events.countP (isCastFinishOf q))
        = ctx.events.countP (isCastFinishOf q)
          + due.length * (if p.playerId = q then 1 else 0) := by
  intro due
  induction due with
  | nil =>
    intro ctx
    simp
  | cons c rest ih =>
    intro ctx
    rw [List.foldl_cons, ih, resolveCast_events_count]
    by_cases hq : p.playerId = q
    · simp only [if_pos hq, List.length_cons]
      omega
    · simp [if_neg hq]

theorem stepPlayerCasts_events_count (now : ℤ) (projRand : ℕ → ℝ) (acc : CastCtx)
    (k : String) (p : Player) (q : String) :
    ((stepPlayerCasts now projRand acc k p).events.countP (isCastFinishOf q))
      = acc.events.countP (isCastFinishOf q)
        + (if p.playerId = q
           then (p.casts.filter (fun c => !(now < c.finishAt : Bool))).length
           else 0) := by
  unfold stepPlayerCasts
  by_cases h0 : p.casts.length = 0
  · rw [if_pos h0]
    have hcs : p.casts = [] := List.length_eq_zero.mp h0
    rw [hcs]
    simp
  · rw [if_neg h0]
    simp only
    rw [dueFold_events_count]
    by_cases hq : p.playerId = q
    · simp [hq]
    · simp [hq]

theorem stepCastsFold_events_count (now : ℤ) (projRand : ℕ → ℝ) (q : String) :
    ∀ (todo : List (String × Player)) (acc : CastCtx),
      ((todo.foldl (fun a e => stepPlayerCasts now projRand a e.1 e.2) acc).events.countP
          (isCastFinishOf q))
        = acc.events.countP (isCastFinishOf q)
          + (todo.map (fun e =>
              if e.2.playerId = q
              then (e.2.casts.filter (fun c => !(now < c.finishAt : Bool))).length
              else 0)).sum := by
  intro todo
  induction todo with
  | nil =>
    intro acc
    simp
  | cons e0 rest ih =>
    intro acc
    rw [List.foldl_cons, ih, stepPlayerCasts_events_count]
    simp only [List.map_cons, List.sum_cons]
    ring

theorem stepCasts_events_count (now : ℤ) (projRand : ℕ → ℝ) (room : Room) (q : String) :
    ((stepCasts now projRand room).events.countP (isCastFinishOf q))
      = (room.players.map (fun e =>
          if e.2.playerId = q
          then (e.2.casts.filter (fun c => !(now < c.finishAt : Bool))).length
          else 0)).sum := by
  unfold stepCasts
  rw [stepCastsFold_events_count]
  simp

theorem contrib_sum_single (g : Player → ℕ) :
    ∀ (todo : List (String × Player)) (k : String) (p : Player),
      (keys (todo : JMap Player)).Nodup → (k, p) ∈ todo →
      (∀ e ∈ todo, e.1 ≠ k → g e.2 = 0) →
      (todo.map (fun e => g e.2)).sum = g p := by
  intro todo
  induction todo with
  | nil =>
    intro k p _ hmem _
    simp at hmem
  | cons e0 rest ih =>
    intro k p hnd hmem hz
    have hnd' : e0.1 ∉ keys rest ∧ (keys rest).Nodup := by
      rw [keys, List.map_cons] at hnd
      exact List.nodup_cons.mp hnd
    simp only [List.map_cons, List.sum_cons]
    rcases List.mem_cons.mp hmem with h' | h'
    · have he0k : e0.1 = k := by rw [← h']
      have hrest0 : ∀ x ∈ rest.map (fun e => g e.2), x = 0 := by
        intro x hx
        obtain ⟨e, he, hex⟩ := List.mem_map.mp hx
        have hne : e.1 ≠ k := by
          intro hc
          have hkmem : k ∈ keys rest := List.mem_map.mpr ⟨e, he, hc⟩
          exact (he0k ▸ hnd'.1) hkmem
        rw [← hex]
        exact hz e (List.mem_cons_of_mem _ he) hne
      rw [List.sum_eq_zero hrest0, ← h']
      simp
    · have hne0 : e0.1 ≠ k := fun hc =>
        hnd'.1 (by rw [hc]; exact List.mem_map.mpr ⟨(k, p), h', rfl⟩)
      rw [hz e0 (List.mem_cons_self _ _) hne0, ih k p hnd'.2 h'
        (fun e he hne => hz e (List.mem_cons_of_mem _ he) hne)]
      simp

theorem projFold_players (now : ℤ) (dt : ℝ) :
    ∀ (todo : List (String × Projectile)) (room : Room) (evs : List GameEvent),
      ((todo.foldl (fun acc e => stepProj now dt acc e.1 e.2) (room, evs)).1.players)
        = room.players := by
  intro todo
  induction todo with
  | nil =>
    intro room evs
    rfl
  | cons e0 rest ih =>
    intro room evs
    rw [List.foldl_cons]
    have hrw : stepProj now dt (room, evs) e0.1 e0.2
        = ((stepProj now dt (room, evs) e0.1 e0.2).1,
           (stepProj now dt (room, evs) e0.1 e0.2).2) := rfl
    rw [hrw, ih, stepProj_players]

theorem projFold_events_count (now : ℤ) (dt : ℝ) (q : String) :
    ∀ (todo : List (String × Projectile)) (room : Room) (evs : List GameEvent),
      ((todo.foldl (fun acc e => stepProj now dt acc e.1 e.2) (room, evs)).2.countP
          (isCastFinishOf q))
        = evs.countP (isCastFinishOf q) := by
  intro todo
  induction todo with
  | nil =>
    intro room evs
    rfl
  | cons e0 rest ih =>
    intro room evs
    rw [List.foldl_cons]
    have hrw : stepProj now dt (room, evs) e0.1 e0.2
        = ((stepProj now dt (room, evs) e0.1 e0.2).1,
           (stepProj now dt (room, evs) e0.1 e0.2).2) := rfl
    rw [hrw, ih, stepProj_events_cast_free]

theorem stepProjectiles_players (now : ℤ) (dt : ℝ) (room : Room) :
    (stepProjectiles now dt room).1.players = room.players := by
  unfold stepProjectiles
  exact projFold_players now dt room.projectiles room []

theorem stepProjectiles_events_count (now : ℤ) (dt : ℝ) (room : Room) (q : String) :
    ((stepProjectiles now dt room).2.countP (isCastFinishOf q)) = 0 := by
  unfold stepProjectiles
  rw [projFold_events_count]
  rfl

theorem movePlayer_casts (dt : ℝ) (p : Player) : (movePlayer dt p).casts = p.casts := rfl

theorem movePlayer_playerId (dt : ℝ) (p : Player) : (movePlayer dt p).playerId = p.playerId := rfl

theorem stepPlayers_players (dt : ℝ) (room : Room) :
    (stepPlayers dt room).players = room.players.map (fun e => (e.1, movePlayer dt e.2)) := rfl

theorem stepEnemies_players (now : ℤ) (dt : ℝ) (draws : String → WanderDraw) (room : Room) :
    (stepEnemies now dt draws room).players = room.players := rfl

/-- The resulting state of one player after a whole tick: moved by step 1,
due casts dropped by step 3, untouched by steps 2 and 4. -/
theorem tickRoom_player (now : ℤ) (dt : ℝ) (draws : String → WanderDraw)
    (projRand : ℕ → ℝ) (room : Room) (hn : (keys room.players).Nodup) (k : String) :
    jGet (tickRoom now dt draws projRand room).1.players k
      = (jGet room.players k).map (fun p =>
          { movePlayer dt p with
            casts := p.casts.filter (fun c => (now < c.finishAt : Bool)) }) := by
  unfold tickRoom
  simp only
  rw [stepProjectiles_players]
  have hn2 : (keys (stepEnemies now dt draws (stepPlayers dt room)).players).Nodup := by
    rw [stepEnemies_players, stepPlayers_players, keys_map_value]
    exact hn
  rw [stepCasts_players_jGet _ _ _ hn2, stepEnemies_players, stepPlayers_players,
    jGet_map_value]
  cases jGet room.players k with
  | none => rfl
  | some p => rfl

/-- The number of `cast_finish` events a full tick emits for actor id `q`. -/
theorem tickRoom_events_castFinish (now : ℤ) (dt : ℝ) (draws : String → WanderDraw)
    (projRand : ℕ → ℝ) (room : Room) (q : String) :
    ((tickRoom now dt draws projRand room).2.countP (isCastFinishOf q))
      = (room.players.map (fun e =>
          if e.2.playerId = q
          then (e.2.casts.filter (fun c => !(now < c.finishAt : Bool))).length
          else 0)).sum := by
  unfold tickRoom
  simp only
  rw [List.countP_append]
  rw [show ((stepProjectiles now dt
      (stepCasts now projRand (stepEnemies now dt draws (stepPlayers dt room))).room).2.countP
      (isCastFinishOf q)) = 0 from stepProjectiles_events_count _ _ _ _]
  rw [stepCasts_events_count, stepEnemies_players, stepPlayers_players]
  rw [List.map_map]
  simp only [Nat.add_zero]
  rfl

/-! ## Concrete entities used by witnesses and counterexamples -/

noncomputable def wEnv : Env := { timeOfDay := 12.0, weather := "clear" }

noncomputable def wAlice : Player :=
  { socketId := "s1", playerId := "alice", name := "A", x := 0, z := 0, vx := 0, vz := 0
    rotY := 0, hp := 100, maxHp := 100, mana := 50, maxMana := 50, casts := [] }

noncomputable def wEnemyFull : Enemy :=
  { enemyId := "e1", x := 0, z := 0, vx := 0, vz := 0, rotY := 0, state := "wander"
    nextWanderAt := 0, hp := 50, maxHp := 50 }

noncomputable def wRoomA : Room :=
  { players := [("s1", wAlice)], enemies := [("e1", wEnemyFull)], projectiles := [], env := wEnv }

noncomputable def wRoomB : Room :=
  { players := [("s1", wAlice)], enemies := [], projectiles := [], env := wEnv }

/-! ## Claims -/

/-- C4: in every reachable room, the enemy map holds exactly the
`enemyCount` (6) seeded keys — so no operation ever adds or removes an
enemy — and every enemy satisfies `0 ≤ hp ≤ maxHp` with `maxHp = 50`, the
value both fields get at room creation. -/
theorem c4_enemy_invariants {room : Room} (h : Reachable room) :
    keys room.enemies = seedKeys ∧ room.enemies.length = enemyCount ∧
    ∀ e ∈ room.enemies, 0 ≤ e.2.hp ∧ e.2.hp ≤ e.2.maxHp ∧ e.2.maxHp = 50 := by
  have hg := reachable_good h
  refine ⟨hg.enemyKeys, ?_, hg.enemyHp⟩
  have hl := congrArg List.length hg.enemyKeys
  simpa [keys, seedKeys] using hl

/-- Witness for C4 at a freshly seeded room. -/
theorem c4_enemy_invariants_witness :
    Reachable (getRoomFresh (fun _ => (0, 0))) ∧
    (keys (getRoomFresh (fun _ => (0, 0))).enemies = seedKeys ∧
     (getRoomFresh (fun _ => (0, 0))).enemies.length = enemyCount ∧
     ∀ e ∈ (getRoomFresh (fun _ => (0, 0))).enemies,
       0 ≤ e.2.hp ∧ e.2.hp ≤ e.2.maxHp ∧ e.2.maxHp = 50) :=
  ⟨Reachable.seed _, c4_enemy_invariants (Reachable.seed _)⟩

/-- C5: a reachable room never holds more than `maxProjectilesPerRoom + 1`
projectiles, and a spawn that happens while the count already exceeds the
bound evicts exactly the oldest-inserted projectile (the head of the
insertion-ordered map) before inserting the new one. -/
theorem c5_capacity {room : Room} (h : Reachable room) :
    room.projectiles.length ≤ maxProjectilesPerRoom + 1 ∧
    (room.projectiles.length > maxProjectilesPerRoom →
      ∀ proj : Projectile,
        (spawnProjectile room proj).projectiles
          = jSet room.projectiles.tail proj.projId proj) := by
  have hg := reachable_good h
  refine ⟨hg.projCount, ?_⟩
  intro hlen proj
  show jSet (evictIfFull room.projectiles) proj.projId proj = _
  congr 1
  unfold evictIfFull
  rw [if_pos hlen]
  cases hL : room.projectiles with
  | nil => rfl
  | cons e0 rest =>
    simp only []
    rw [if_neg (hg.projKeys e0 (by rw [hL]; exact List.mem_cons_self _ _))]
    rfl

/-- Witness for C5 at a freshly seeded room. -/
theorem c5_capacity_witness :
    Reachable (getRoomFresh (fun _ => (0, 0))) ∧
    (getRoomFresh (fun _ => (0, 0))).projectiles.length ≤ maxProjectilesPerRoom + 1 :=
  ⟨Reachable.seed _, (c5_capacity (Reachable.seed _)).1⟩

/-- C7: the `input` handler overwrites exactly the intent fields that
arrived as numbers (`some v`), leaves absent or non-numeric fields
(`none`) unchanged, raises no error, changes nothing else on the player,
and is a complete no-op when the referenced room or the sender's player
does not exist. -/
theorem c7_input (rooms : JMap Room) (sid rid : String) (vx vz rotY : Option ℝ) :
    (jGet rooms rid = none → applyInput rooms sid rid vx vz rotY = rooms) ∧
    (∀ room, jGet rooms rid = some room → jGet room.players sid = none →
      applyInput rooms sid rid vx vz rotY = rooms) ∧
    (∀ room p, jGet rooms rid = some room → jGet room.players sid = some p →
      ∃ p2 : Player,
        inputRoom room sid vx vz rotY
          = { room with players := jSet room.players sid p2 } ∧
        applyInput rooms sid rid vx vz rotY
          = jSet rooms rid (inputRoom room sid vx vz rotY) ∧
        p2.vx = vx.getD p.vx ∧ p2.vz = vz.getD p.vz ∧ p2.rotY = rotY.getD p.rotY ∧
        p2.x = p.x ∧ p2.z = p.z ∧ p2.hp = p.hp ∧ p2.maxHp = p.maxHp ∧
        p2.mana = p.mana ∧ p2.maxMana = p.maxMana ∧ p2.casts = p.casts ∧
        p2.playerId = p.playerId ∧ p2.socketId = p.socketId ∧ p2.name = p.name) := by
  refine ⟨?_, ?_, ?_⟩
  · intro h
    unfold applyInput
    rw [h]
  · intro room hroom hpl
    unfold applyInput
    rw [hroom]
    simp only
    have hid : inputRoom room sid vx vz rotY = room := by
      unfold inputRoom
      rw [hpl]
    rw [hid]
    exact jSet_self hroom
  · intro room p hroom hpl
    refine ⟨{ p with vx := vx.getD p.vx, vz := vz.getD p.vz, rotY := rotY.getD p.rotY },
      ?_, ?_, rfl, rfl, rfl, rfl, rfl, rfl, rfl, rfl, rfl, rfl, rfl, rfl, rfl⟩
    · unfold inputRoom
      rw [hpl]
    · unfold applyInput
      rw [hroom]

/-- Witness for C7: an `input` carrying a numeric `vx` and no `vz`/`rotY`.-/
theorem c7_input_witness :
    jGet [("r1", wRoomA)] "r1" = some wRoomA ∧
    jGet wRoomA.players "s1" = some wAlice ∧
    ∃ p2 : Player,
      inputRoom wRoomA "s1" (some 1) none none
        = { wRoomA with players := jSet wRoomA.players "s1" p2 } ∧
      applyInput [("r1", wRoomA)] "s1" "r1" (some 1) none none
        = jSet [("r1", wRoomA)] "r1" (inputRoom wRoomA "s1" (some 1) none none) ∧
      p2.vx = (some (1 : ℝ)).getD wAlice.vx ∧ p2.vz = (none : Option ℝ).getD wAlice.vz ∧
      p2.rotY = (none : Option ℝ).getD wAlice.rotY ∧
      p2.x = wAlice.x ∧ p2.z = wAlice.z ∧ p2.hp = wAlice.hp ∧ p2.maxHp = wAlice.maxHp ∧
      p2.mana = wAlice.mana ∧ p2.maxMana = wAlice.maxMana ∧ p2.casts = wAlice.casts ∧
      p2.playerId = wAlice.playerId ∧ p2.socketId = wAlice.socketId ∧ p2.name = wAlice.name :=
  ⟨rfl, rfl, (c7_input [("r1", wRoomA)] "s1" "r1" (some 1) none none).2.2 wRoomA wAlice rfl rfl⟩

/-- C10: `disconnect` removes the socket's player only from the FIRST room
in registry-iteration order that contains it (the loop breaks there):
`player_left` fires for that room alone, the emptied-room check runs for
that room alone, and every later room — including rooms that also hold a
player entry for that connection — is left untouched. -/
theorem c10_disconnect_first_only
    (pre : JMap Room) (rid : String) (room : Room) (post : JMap Room)
    (sid : String) (p : Player)
    (hpre : ∀ r ∈ pre, jGet r.2.players sid = none)
    (hp : jGet room.players sid = some p) :
    disconnect (pre ++ (rid, room) :: post) sid
      = (pre ++ (if (jDel room.players sid).length = 0 then post
                 else (rid, { room with players := jDel room.players sid }) :: post),
         [(rid, GameEvent.player_left p.playerId p.name)]) := by
  induction pre with
  | nil =>
    simp only [List.nil_append]
    unfold disconnect
    rw [hp]
    simp only
    by_cases hlen : (jDel room.players sid).length = 0
    · rw [if_pos hlen, if_pos hlen]
    · rw [if_neg hlen, if_neg hlen]
  | cons e0 pre2 ih =>
    obtain ⟨rid0, room0⟩ := e0
    have h0 : jGet room0.players sid = none := hpre (rid0, room0) (List.mem_cons_self _ _)
    have ih2 := ih (fun r hr => hpre r (List.mem_cons_of_mem _ hr))
    simp only [List.cons_append]
    unfold disconnect
    rw [h0]
    simp only
    rw [ih2]

/-- Witness for C10: socket `s1` has joined both `r1` and `r2`; disconnect
handles `r1` only (and deletes it, now empty) while the `r2` entry stays. -/
theorem c10_disconnect_first_only_witness :
    jGet wRoomA.players "s1" = some wAlice ∧
    disconnect [("r1", wRoomA), ("r2", wRoomB)] "s1"
      = ([("r2", wRoomB)], [("r1", GameEvent.player_left "alice" "A")]) ∧
    jGet wRoomB.players "s1" = some wAlice := by
  refine ⟨rfl, ?_, rfl⟩
  have h := c10_disconnect_first_only [] "r1" wRoomA [("r2", wRoomB)] "s1" wAlice
    (fun r hr => by simp at hr) rfl
  simpa using h

noncomputable def wEnemyWeak : Enemy := { wEnemyFull with hp := 6 }

noncomputable def wRoomWeak : Room :=
  { players := [("s1", wAlice)], enemies := [("e1", wEnemyWeak)], projectiles := [], env := wEnv }

/-- Counterexample for C3 as frozen: an `attack` whose target enemy `e1`
resolves, sent by a connection (`s2`) that has no player in the room and
whose `actorId` (`bob`) matches no player, is a complete no-op — no damage
is applied and no event is emitted, although the claim's case split
promises `damage` (and hp reduction) whenever the target resolves. -/
theorem c3_attack_counterexample :
    findEnemy wRoomA "e1" = some wEnemyFull ∧
    actorResolve wRoomA "s2" (some "bob") = none ∧
    applyAction [("r1", wRoomA)] "s2" "r1" (some "bob") "attack"
        (some { spellId := none, targetEnemyId := some "e1" }) 0
      = ([("r1", wRoomA)], []) := by
  exact ⟨rfl, rfl, rfl⟩

/-- C3 (amended): the attack dichotomy on target resolution holds PROVIDED
the acting player resolves (actorId matches a player, or the sender has a
player in the room); an attack whose actor does not resolve is a complete
no-op even when the target enemy exists. With a resolved actor: an
unresolvable target leaves the room unchanged with no event; a resolved
target gets `hp := max 0 (hp - 6)`, a `damage` event carrying the new hp,
and an `enemy_death` event exactly when the new hp is `≤ 0` — with no
gating on prior death, so repeating the attack on a dead enemy emits both
events again. -/
theorem c3_attack (room : Room) (sid : String) (actorId : Option String)
    (payload : Option ActionPayload) (now : ℤ) :
    (actorResolve room sid actorId = none →
      actionRoom room sid actorId "attack" payload now = (room, [])) ∧
    (∀ actor, actorResolve room sid actorId = some actor →
      (strTruthy (payload.bind (fun pl => pl.targetEnemyId)) = none →
        actionRoom room sid actorId "attack" payload now = (room, [])) ∧
      (∀ t, strTruthy (payload.bind (fun pl => pl.targetEnemyId)) = some t →
        (findEnemy room t = none →
          actionRoom room sid actorId "attack" payload now = (room, [])) ∧
        (∀ e, findEnemy room t = some e →
          actionRoom room sid actorId "attack" payload now
            = ({ room with enemies := jSet room.enemies t ({ e with hp := max 0 (e.hp - 6) }) },
               [GameEvent.damage actor.playerId "enemy" e.enemyId 6 (max 0 (e.hp - 6)) e.maxHp]
                 ++ (if max 0 (e.hp - 6) ≤ 0
                     then [GameEvent.enemy_death e.enemyId] else []))))) := by
  constructor
  · intro h
    unfold actionRoom
    rw [h]
  · intro actor hactor
    constructor
    · intro ht
      unfold actionRoom
      rw [hactor]
      simp only
      rw [ht]
      rfl
    · intro t ht
      constructor
      · intro hfe
        unfold actionRoom
        rw [hactor]
        simp only
        rw [ht]
        simp only
        rw [hfe]
        rfl
      · intro e hfe
        unfold actionRoom
        rw [hactor]
        simp only
        rw [ht]
        simp only
        rw [hfe]
        rfl

/-- Witness for C3 (amended), realizing the spec scenario `hp = 6`,
`dmg = 6`: the action emits `damage` with hp `0` followed immediately by
`enemy_death`. -/
theorem c3_attack_witness :
    actorResolve wRoomWeak "s1" none = some wAlice ∧
    strTruthy ((some { spellId := none, targetEnemyId := some "e1" } :
        Option ActionPayload).bind (fun pl => pl.targetEnemyId)) = some "e1" ∧
    findEnemy wRoomWeak "e1" = some wEnemyWeak ∧
    (actionRoom wRoomWeak "s1" none "attack"
        (some { spellId := none, targetEnemyId := some "e1" }) 0).2
      = [GameEvent.damage "alice" "enemy" "e1" 6 0 50, GameEvent.enemy_death "e1"] := by
  refine ⟨rfl, rfl, rfl, ?_⟩
  have h := ((((c3_attack wRoomWeak "s1" none
      (some { spellId := none, targetEnemyId := some "e1" }) 0).2 wAlice rfl).2
      "e1" rfl).2 wEnemyWeak rfl)
  rw [h]
  have hhp : max (0 : ℝ) (wEnemyWeak.hp - 6) = 0 := by
    show max (0 : ℝ) (6 - 6) = 0
    norm_num
  rw [hhp]
  simp only [le_refl, if_pos]
  show [GameEvent.damage wAlice.playerId "enemy" wEnemyWeak.enemyId 6 0 wEnemyWeak.maxHp]
      ++ [GameEvent.enemy_death wEnemyWeak.enemyId] = _
  rfl

/-- C2: a `cast` action handled at time `T` enqueues a cast entry with
`startAt = T` and `finishAt = T + castTimeMs` (650, used for every spell);
on a tick at time `now` every cast entry of a player stays queued exactly
while `now < finishAt`, and is dropped — with exactly one `cast_finish`
emitted for it — on the first tick where `now ≥ finishAt`. -/
theorem c2_cast_timing (room : Room) (T : ℤ) :
    (∀ (sid : String) (actorId : Option String) (payload : Option ActionPayload) (actor : Player),
      actorResolve room sid actorId = some actor →
      ∃ (c : Cast) (actor2 : Player),
        actor2 = { actor with casts := actor.casts ++ [c] } ∧
        actionRoom room sid actorId "cast" payload T
          = ({ room with players := jSet room.players actor.socketId actor2 },
             [GameEvent.cast_start actor.playerId c.spellId c.targetEnemyId fireballCastTimeMs]) ∧
        c.startAt = T ∧ c.finishAt = T + fireballCastTimeMs) ∧
    (∀ (now : ℤ) (dt : ℝ) (draws : String → WanderDraw) (projRand : ℕ → ℝ)
       (k : String) (p : Player),
      (keys room.players).Nodup → jGet room.players k = some p →
      (∃ p2 : Player,
        jGet (tickRoom now dt draws projRand room).1.players k = some p2 ∧
        p2.casts = p.casts.filter (fun c => (now < c.finishAt : Bool))) ∧
      ((∀ e ∈ room.players, e.1 ≠ k → e.2.playerId ≠ p.playerId) →
        ((tickRoom now dt draws projRand room).2.countP (isCastFinishOf p.playerId))
          = (p.casts.filter (fun c => !(now < c.finishAt : Bool))).length)) := by
  constructor
  · intro sid actorId payload actor hactor
    refine ⟨{ spellId := strOrElse (payload.bind (fun pl => pl.spellId)) "fireball"
              targetEnemyId := strTruthy (payload.bind (fun pl => pl.targetEnemyId))
              startAt := T, finishAt := T + fireballCastTimeMs }, _, rfl, ?_, rfl, rfl⟩
    unfold actionRoom
    rw [hactor]
    rfl
  · intro now dt draws projRand k p hn hp
    constructor
    · refine ⟨{ movePlayer dt p with
          casts := p.casts.filter (fun c => (now < c.finishAt : Bool)) }, ?_, rfl⟩
      rw [tickRoom_player now dt draws projRand room hn k, hp]
      rfl
    · intro huniq
      rw [tickRoom_events_castFinish]
      have hsum := contrib_sum_single
        (fun pl => if pl.playerId = p.playerId
                   then (pl.casts.filter (fun c => !(now < c.finishAt : Bool))).length
                   else 0)
        room.players k p hn (jGet_mem hp)
        (fun e he hne => by
          simp only []
          rw [if_neg (huniq e he hne)])
      rw [hsum]
      simp

noncomputable def wCastPending : Cast :=
  { spellId := "fireball", targetEnemyId := none, startAt := 0, finishAt := 650 }

noncomputable def wCaster : Player := { wAlice with casts := [wCastPending] }

noncomputable def wRoomCaster : Room :=
  { players := [("s1", wCaster)], enemies := [], projectiles := [], env := wEnv }

/-- Witness for C2: the enqueue equation at `T = 0`, plus one tick at
`now = 649` (cast stays queued, no `cast_finish`) and one at `now = 650`
(cast dropped, exactly one `cast_finish`). -/
theorem c2_cast_timing_witness :
    (actorResolve wRoomB "s1" none = some wAlice ∧
     ∃ (c : Cast) (actor2 : Player),
       actor2 = { wAlice with casts := wAlice.casts ++ [c] } ∧
       actionRoom wRoomB "s1" none "cast" none 0
         = ({ wRoomB with players := jSet wRoomB.players wAlice.socketId actor2 },
            [GameEvent.cast_start wAlice.playerId c.spellId c.targetEnemyId fireballCastTimeMs]) ∧
       c.startAt = 0 ∧ c.finishAt = 0 + fireballCastTimeMs) ∧
    ((keys wRoomCaster.players).Nodup ∧ jGet wRoomCaster.players "s1" = some wCaster) ∧
    (∃ p2 : Player,
      jGet (tickRoom 649 0 (fun _ => ⟨0, 0⟩) (fun _ => 0) wRoomCaster).1.players "s1" = some p2 ∧
      p2.casts = wCaster.casts.filter (fun c => ((649 : ℤ) < c.finishAt : Bool))) ∧
    ((tickRoom 650 0 (fun _ => ⟨0, 0⟩) (fun _ => 0) wRoomCaster).2.countP
        (isCastFinishOf wCaster.playerId))
      = (wCaster.casts.filter (fun c => !((650 : ℤ) < c.finishAt : Bool))).length := by
  refine ⟨⟨rfl, (c2_cast_timing wRoomB 0).1 "s1" none none wAlice rfl⟩, ?_, ?_, ?_⟩
  · exact ⟨by simp [wRoomCaster, keys], rfl⟩
  · exact (((c2_cast_timing wRoomCaster 0).2 649 0 (fun _ => ⟨0, 0⟩) (fun _ => 0)
      "s1" wCaster (by simp [wRoomCaster, keys]) rfl).1)
  · exact (((c2_cast_timing wRoomCaster 0).2 650 0 (fun _ => ⟨0, 0⟩) (fun _ => 0)
      "s1" wCaster (by simp [wRoomCaster, keys]) rfl).2
      (fun e he hne => by
        simp only [wRoomCaster] at he
        rcases List.mem_cons.mp he with h1 | h1
        · exact absurd (by rw [h1]) hne
        · simp at h1))

/-- C8: on each tick every player's position advances by its intent vector
— normalized to unit length exactly when its length exceeds 1 — times
`playerSpeed` and the clamped delta `dt`; in particular, a player at the
origin with intent `(1, 0)` ends a 15 Hz tick (gap ≈ 67 ms, so
`dt ≈ 0.0667 s`) at `x ≈ 0.267`, `z = 0`. -/
theorem c8_player_movement :
    (∀ (room : Room) (now : ℤ) (dt : ℝ) (draws : String → WanderDraw) (projRand : ℕ → ℝ)
       (k : String) (p : Player),
      (keys room.players).Nodup → jGet room.players k = some p →
      ∃ p2 : Player,
        jGet (tickRoom now dt draws projRand room).1.players k = some p2 ∧
        p2.x = p.x + (if len p.vx p.vz > 1 then p.vx / len p.vx p.vz else p.vx) * playerSpeed * dt ∧
        p2.z = p.z + (if len p.vx p.vz > 1 then p.vz / len p.vx p.vz else p.vz) * playerSpeed * dt) ∧
    (∀ (room : Room) (now g : ℤ) (draws : String → WanderDraw) (projRand : ℕ → ℝ)
       (k : String) (p : Player),
      (keys room.players).Nodup → jGet room.players k = some p →
      p.x = 0 → p.z = 0 → p.vx = 1 → p.vz = 0 → 66 ≤ g → g ≤ 68 →
      ∃ p2 : Player,
        jGet (tickRoom now (computeDt now (now - g)) draws projRand room).1.players k = some p2 ∧
        |p2.x - 0.267| ≤ 5 / 1000 ∧ p2.z = 0) := by
  have hgen : ∀ (room : Room) (now : ℤ) (dt : ℝ) (draws : String → WanderDraw)
      (projRand : ℕ → ℝ) (k : String) (p : Player),
      (keys room.players).Nodup → jGet room.players k = some p →
      ∃ p2 : Player,
        jGet (tickRoom now dt draws projRand room).1.players k = some p2 ∧
        p2.x = p.x + (if len p.vx p.vz > 1 then p.vx / len p.vx p.vz else p.vx) * playerSpeed * dt ∧
        p2.z = p.z + (if len p.vx p.vz > 1 then p.vz / len p.vx p.vz else p.vz) * playerSpeed * dt := by
    intro room now dt draws projRand k p hn hp
    refine ⟨{ movePlayer dt p with
        casts := p.casts.filter (fun c => (now < c.finishAt : Bool)) }, ?_, rfl, rfl⟩
    rw [tickRoom_player now dt draws projRand room hn k, hp]
    rfl
  refine ⟨hgen, ?_⟩
  intro room now g draws projRand k p hn hp hx hz hvx hvz hg1 hg2
  obtain ⟨p2, hp2, hx2, hz2⟩ := hgen room now (computeDt now (now - g)) draws projRand k p hn hp
  have hgr : (66 : ℝ) ≤ (g : ℤ) := by exact_mod_cast hg1
  have hgl : ((g : ℤ) : ℝ) ≤ 68 := by exact_mod_cast hg2
  have hlen : len p.vx p.vz = 1 := by
    rw [hvx, hvz]
    unfold len
    rw [show (1 : ℝ) * 1 + 0 * 0 = 1 by norm_num, Real.sqrt_one]
  have hdt : computeDt now (now - g) = ((g : ℤ) : ℝ) / 1000 := by
    unfold computeDt clamp
    rw [show now - (now - g) = g by ring]
    rw [min_eq_right (by unfold dtClampSeconds; linarith), max_eq_right (by linarith)]
  refine ⟨p2, hp2, ?_, ?_⟩
  · have hx3 : p2.x = 4 * (((g : ℤ) : ℝ) / 1000) := by
      rw [hx2, hlen, if_neg (lt_irrefl (1 : ℝ)), hx, hvx, hdt]
      norm_num [playerSpeed]
    rw [hx3, abs_le]
    constructor
    · linarith
    · linarith
  · rw [hz2, hlen, if_neg (lt_irrefl (1 : ℝ)), hz, hvz]
    ring

noncomputable def wRunner : Player := { wAlice with vx := 1 }

noncomputable def wRoomRun : Room :=
  { players := [("s1", wRunner)], enemies := [], projectiles := [], env := wEnv }

/-- Witness for C8: the spec scenario (intent `(1,0)`, one 67 ms tick). -/
theorem c8_player_movement_witness :
    ((keys wRoomRun.players).Nodup ∧ jGet wRoomRun.players "s1" = some wRunner ∧
     wRunner.x = 0 ∧ wRunner.z = 0 ∧ wRunner.vx = 1 ∧ wRunner.vz = 0 ∧
     (66 : ℤ) ≤ 67 ∧ (67 : ℤ) ≤ 68) ∧
    ∃ p2 : Player,
      jGet (tickRoom 67 (computeDt 67 (67 - 67)) (fun _ => ⟨0, 0⟩) (fun _ => 0)
          wRoomRun).1.players "s1" = some p2 ∧
      |p2.x - 0.267| ≤ 5 / 1000 ∧ p2.z = 0 := by
  refine ⟨⟨by simp [wRoomRun, keys], rfl, rfl, rfl, rfl, rfl, by decide, by decide⟩, ?_⟩
  exact (c8_player_movement).2 wRoomRun 67 67 (fun _ => ⟨0, 0⟩) (fun _ => 0) "s1" wRunner
    (by simp [wRoomRun, keys]) rfl rfl rfl rfl rfl (by decide) (by decide)

/-- Equality of the four vital fields of two players. -/
def vitalsEq (p q : Player) : Prop :=
  p.hp = q.hp ∧ p.maxHp = q.maxHp ∧ p.mana = q.mana ∧ p.maxMana = q.maxMana

theorem findPlayerByPlayerId_mem {room : Room} {a : String} {q : Player}
    (h : findPlayerByPlayerId room a = some q) : ∃ k0, (k0, q) ∈ room.players := by
  unfold findPlayerByPlayerId at h
  obtain ⟨e, hfind, he2⟩ := Option.map_eq_some'.mp h
  refine ⟨e.1, ?_⟩
  have hmem := List.mem_of_find?_eq_some hfind
  rw [← he2]
  exact hmem

theorem actorResolve_mem {room : Room} {sid : String} {actorId : Option String} {actor : Player}
    (h : actorResolve room sid actorId = some actor) : ∃ k0, (k0, actor) ∈ room.players := by
  unfold actorResolve at h
  cases actorId with
  | none =>
    simp only at h
    exact ⟨sid, jGet_mem h⟩
  | some a =>
    simp only at h
    cases hf : findPlayerByPlayerId room a with
    | none =>
      rw [hf] at h
      exact ⟨sid, jGet_mem h⟩
    | some q =>
      rw [hf] at h
      injection h with hq
      exact hq ▸ findPlayerByPlayerId_mem hf

theorem actionRoom_players_cast {room : Room} {sid : String} {actorId : Option String}
    {payload : Option ActionPayload} {now : ℤ} {actor : Player}
    (hactor : actorResolve room sid actorId = some actor) :
    ∃ c : Cast,
      (actionRoom room sid actorId "cast" payload now).1.players
        = jSet room.players actor.socketId ({ actor with casts := actor.casts ++ [c] }) := by
  refine ⟨{ spellId := strOrElse (payload.bind (fun pl => pl.spellId)) "fireball"
            targetEnemyId := strTruthy (payload.bind (fun pl => pl.targetEnemyId))
            startAt := now, finishAt := now + fireballCastTimeMs }, ?_⟩
  unfold actionRoom
  rw [hactor]
  rfl

theorem actionRoom_players_noactor {room : Room} {sid : String} {actorId : Option String}
    {atype : String} {payload : Option ActionPayload} {now : ℤ}
    (hactor : actorResolve room sid actorId = none) :
    (actionRoom room sid actorId atype payload now).1.players = room.players := by
  unfold actionRoom
  rw [hactor]

theorem actionRoom_players_noncast {room : Room} {sid : String} {actorId : Option String}
    {atype : String} {payload : Option ActionPayload} {now : ℤ}
    (h : ¬ atype = "cast") :
    (actionRoom room sid actorId atype payload now).1.players = room.players := by
  unfold actionRoom
  cases actorResolve room sid actorId with
  | none => rfl
  | some actor =>
    simp only
    rw [if_neg h]
    by_cases ha : atype = "attack"
    · rw [if_pos ha]
      cases strTruthy (payload.bind (fun pl => pl.targetEnemyId)) with
      | none => rfl
      | some t =>
        simp only
        cases findEnemy room t with
        | none => rfl
        | some e => rfl
    · rw [if_neg ha]

/-- C9: (implicit frame property) a player's `hp`, `maxHp`, `mana`,
`maxMana` are set once at `joinRoom` (100, 100, 50, 50) and no later
operation — `input`, any `action`, any tick, or a player removal — ever
changes them: nothing in the program damages, heals, spends or regenerates
a player. -/
theorem c9_player_vitals :
    (∀ (room : Room) (sid : String) (pid nm : Option String),
      ∃ q : Player, jGet (joinPlayer room sid pid nm).1.players sid = some q ∧
        q.hp = 100 ∧ q.maxHp = 100 ∧ q.mana = 50 ∧ q.maxMana = 50) ∧
    (∀ (room : Room) (sid : String) (vx vz rotY : Option ℝ) (k : String) (p p2 : Player),
      jGet room.players k = some p →
      jGet (inputRoom room sid vx vz rotY).players k = some p2 → vitalsEq p2 p) ∧
    (∀ (room : Room) (sid : String) (actorId : Option String) (atype : String)
       (payload : Option ActionPayload) (now : ℤ) (k : String) (p p2 : Player),
      (keys room.players).Nodup → (∀ e ∈ room.players, e.2.socketId = e.1) →
      jGet room.players k = some p →
      jGet (actionRoom room sid actorId atype payload now).1.players k = some p2 →
      vitalsEq p2 p) ∧
    (∀ (room : Room) (now : ℤ) (dt : ℝ) (draws : String → WanderDraw) (projRand : ℕ → ℝ)
       (k : String) (p p2 : Player),
      (keys room.players).Nodup → jGet room.players k = some p →
      jGet (tickRoom now dt draws projRand room).1.players k = some p2 → vitalsEq p2 p) ∧
    (∀ (room : Room) (sid k : String) (p p2 : Player),
      jGet room.players k = some p →
      jGet (jDel room.players sid) k = some p2 → vitalsEq p2 p) := by
  refine ⟨?_, ?_, ?_, ?_, ?_⟩
  · intro room sid pid nm
    refine ⟨{ socketId := sid, playerId := strOrElse pid sid, name := strOrElse nm "Player"
              x := 0, z := 0, vx := 0, vz := 0, rotY := 0
              hp := 100, maxHp := 100, mana := 50, maxMana := 50, casts := [] },
      ?_, rfl, rfl, rfl, rfl⟩
    show jGet (jSet room.players sid _) sid = _
    rw [jGet_jSet_self]
  · intro room sid vx vz rotY k p p2 hp hp2
    unfold inputRoom at hp2
    cases hq : jGet room.players sid with
    | none =>
      rw [hq] at hp2
      simp only at hp2
      rw [hp] at hp2
      injection hp2 with h
      rw [← h]
      exact ⟨rfl, rfl, rfl, rfl⟩
    | some q =>
      rw [hq] at hp2
      simp only at hp2
      by_cases hk : k = sid
      · subst hk
        rw [jGet_jSet_self] at hp2
        injection hp2 with h
        rw [hq] at hp
        injection hp with h2
        rw [← h, ← h2]
        exact ⟨rfl, rfl, rfl, rfl⟩
      · rw [jGet_jSet_ne _ _ _ _ hk, hp] at hp2
        injection hp2 with h
        rw [← h]
        exact ⟨rfl, rfl, rfl, rfl⟩
  · intro room sid actorId atype payload now k p p2 hn hkeyed hp hp2
    by_cases hc : atype = "cast"
    · subst hc
      cases hactor : actorResolve room sid actorId with
      | none =>
        rw [actionRoom_players_noactor hactor, hp] at hp2
        injection hp2 with h
        rw [← h]
        exact ⟨rfl, rfl, rfl, rfl⟩
      | some actor =>
        obtain ⟨c, hpl⟩ := @actionRoom_players_cast room sid actorId payload now actor hactor
        rw [hpl] at hp2
        obtain ⟨k0, hmem⟩ := actorResolve_mem hactor
        have hk0 : actor.socketId = k0 := hkeyed (k0, actor) hmem
        have hact : jGet room.players actor.socketId = some actor := by
          rw [hk0]
          exact jGet_of_mem_nodup hn hmem
        by_cases hk : k = actor.socketId
        · subst hk
          rw [jGet_jSet_self] at hp2
          injection hp2 with h
          rw [hact] at hp
          injection hp with h2
          rw [← h, ← h2]
          exact ⟨rfl, rfl, rfl, rfl⟩
        · rw [jGet_jSet_ne _ _ _ _ hk, hp] at hp2
          injection hp2 with h
          rw [← h]
          exact ⟨rfl, rfl, rfl, rfl⟩
    · rw [actionRoom_players_noncast hc, hp] at hp2
      injection hp2 with h
      rw [← h]
      exact ⟨rfl, rfl, rfl, rfl⟩
  · intro room now dt draws projRand k p p2 hn hp hp2
    rw [tickRoom_player now dt draws projRand room hn k, hp] at hp2
    simp only [Option.map_some] at hp2
    injection hp2 with h
    rw [← h]
    exact ⟨rfl, rfl, rfl, rfl⟩
  · intro room sid k p p2 hp hp2
    rw [jGet_jDel] at hp2
    by_cases hk : k = sid
    · rw [if_pos hk] at hp2
      exact absurd hp2 (by simp)
    · rw [if_neg hk, hp] at hp2
      injection hp2 with h
      rw [← h]
      exact ⟨rfl, rfl, rfl, rfl⟩

/-- Witness for C9: joining sets the vitals to (100, 100, 50, 50), and an
`input` leaves them unchanged. -/
theorem c9_player_vitals_witness :
    (∃ q : Player, jGet (joinPlayer wRoomB "s9" none none).1.players "s9" = some q ∧
      q.hp = 100 ∧ q.maxHp = 100 ∧ q.mana = 50 ∧ q.maxMana = 50) ∧
    (jGet wRoomA.players "s1" = some wAlice ∧
     jGet (inputRoom wRoomA "s1" (some 1) none none).players "s1"
        = some ({ wAlice with vx := 1 }) ∧
     vitalsEq ({ wAlice with vx := 1 }) wAlice) := by
  refine ⟨(c9_player_vitals).1 wRoomB "s9" none none, rfl, rfl, ?_⟩
  exact (c9_player_vitals).2.1 wRoomA "s1" (some 1) none none "s1" wAlice
    ({ wAlice with vx := 1 }) rfl rfl

/-- C6: when a queued fireball cast becomes due, exactly one `cast_finish`
is emitted for it and the due entry is dropped from the player's cast
list; if the recorded target enemy still exists, exactly one projectile is
spawned — targeting that enemy, starting at the caster's position, with
velocity `norm2(target - caster) * projectileSpeed`, i.e. a positive
multiple of the displacement toward the target's position at cast-finish
time whenever that displacement is not degenerate — with exactly one
`projectile_spawn` event; if the target does not resolve, exactly one
no-target `spell_effect` is emitted and the room is unchanged apart from
the cast entry being dropped. -/
theorem c6_cast_resolution (now : ℤ) (projRand : ℕ → ℝ) (acc : CastCtx)
    (k : String) (p : Player) (c : Cast)
    (hcs : p.casts = [c]) (hfb : c.spellId = "fireball") (hdue : ¬ now < c.finishAt) :
    (jGet (stepPlayerCasts now projRand acc k p).room.players k
        = some ({ p with casts := [] })) ∧
    (∀ target : Enemy, castTarget acc.room c = some target →
      ∃ proj : Projectile,
        proj.targetEnemyId = some target.enemyId ∧
        proj.x = p.x ∧ proj.z = p.z ∧
        proj.vx = (norm2 (target.x - p.x) (target.z - p.z)).1 * projectileSpeed ∧
        proj.vz = (norm2 (target.x - p.x) (target.z - p.z)).2 * projectileSpeed ∧
        proj.ownerId = p.playerId ∧
        proj.createdAt = now ∧ proj.expiresAt = now + fireballLifetimeMs ∧
        proj.damage = fireballDamage ∧
        (stepPlayerCasts now projRand acc k p).room.projectiles
          = (spawnProjectile acc.room proj).projectiles ∧
        (stepPlayerCasts now projRand acc k p).room.enemies = acc.room.enemies ∧
        (stepPlayerCasts now projRand acc k p).events
          = acc.events ++ [GameEvent.cast_finish p.playerId "fireball" c.targetEnemyId,
                           GameEvent.projectile_spawn proj.projId "fireball" p.playerId
                             target.enemyId] ∧
        (1e-6 ≤ len (target.x - p.x) (target.z - p.z) →
          ∃ s : ℝ, 0 < s ∧ proj.vx = s * (target.x - p.x) ∧
            proj.vz = s * (target.z - p.z))) ∧
    (castTarget acc.room c = none →
      (stepPlayerCasts now projRand acc k p).room
        = { acc.room with players := jSet acc.room.players k ({ p with casts := [] }) } ∧
      (stepPlayerCasts now projRand acc k p).events
        = acc.events ++ [GameEvent.cast_finish p.playerId "fireball" c.targetEnemyId,
                         GameEvent.spell_effect p.playerId "fireball" "no_target"]) := by
  have hlen : ¬ p.casts.length = 0 := by
    rw [hcs]
    simp
  have hdueL : p.casts.filter (fun c => !(now < c.finishAt : Bool)) = [c] := by
    rw [hcs]
    simp [hdue]
  have hremL : p.casts.filter (fun c => (now < c.finishAt : Bool)) = [] := by
    rw [hcs]
    simp [hdue]
  have hunfold : stepPlayerCasts now projRand acc k p
      = { resolveCast now projRand p acc c with
          room := { (resolveCast now projRand p acc c).room with
            players := jSet (resolveCast now projRand p acc c).room.players k
              ({ p with casts := [] }) } } := by
    unfold stepPlayerCasts
    rw [if_neg hlen]
    simp only
    rw [hdueL, hremL, List.foldl_cons, List.foldl_nil]
  refine ⟨?_, ?_, ?_⟩
  · rw [hunfold]
    show jGet (jSet _ k _) k = _
    rw [jGet_jSet_self]
  · intro target htarget
    have hres : resolveCast now projRand p acc c
        = { room := spawnProjectile acc.room
              { projId := projIdOf p.playerId now (projRand acc.ctr), ptype := "fireball"
                x := p.x, z := p.z
                vx := (norm2 (target.x - p.x) (target.z - p.z)).1 * projectileSpeed
                vz := (norm2 (target.x - p.x) (target.z - p.z)).2 * projectileSpeed
                rotY := atan2 (norm2 (target.x - p.x) (target.z - p.z)).1
                  (norm2 (target.x - p.x) (target.z - p.z)).2
                ownerId := p.playerId
                targetEnemyId := some target.enemyId
                createdAt := now, expiresAt := now + fireballLifetimeMs
                damage := fireballDamage }
            events := (acc.events ++ [GameEvent.cast_finish p.playerId c.spellId c.targetEnemyId])
              ++ [GameEvent.projectile_spawn (projIdOf p.playerId now (projRand acc.ctr))
                    "fireball" p.playerId target.enemyId]
            ctr := acc.ctr + 1 } := by
      unfold resolveCast
      rw [if_pos hfb]
      have : castTarget ({ acc with events := acc.events
          ++ [GameEvent.cast_finish p.playerId c.spellId c.targetEnemyId] } : CastCtx).room c
          = some target := htarget
      rw [this]
    refine ⟨{ projId := projIdOf p.playerId now (projRand acc.ctr), ptype := "fireball"
              x := p.x, z := p.z
              vx := (norm2 (target.x - p.x) (target.z - p.z)).1 * projectileSpeed
              vz := (norm2 (target.x - p.x) (target.z - p.z)).2 * projectileSpeed
              rotY := atan2 (norm2 (target.x - p.x) (target.z - p.z)).1
                (norm2 (target.x - p.x) (target.z - p.z)).2
              ownerId := p.playerId
              targetEnemyId := some target.enemyId
              createdAt := now, expiresAt := now + fireballLifetimeMs
              damage := fireballDamage },
      rfl, rfl, rfl, rfl, rfl, rfl, rfl, rfl, rfl, ?_, ?_, ?_, ?_⟩
    · rw [hunfold, hres]
    · rw [hunfold, hres]
      rfl
    · rw [hunfold, hres]
      show ((acc.events ++ [GameEvent.cast_finish p.playerId c.spellId c.targetEnemyId]) ++ _) = _
      rw [hfb, List.append_assoc]
      rfl
    · intro hnd
      have hm : len (target.x - p.x) (target.z - p.z) ≠ 0 := by
        intro hc
        rw [hc] at hnd
        norm_num at hnd
      have hmpos : 0 < len (target.x - p.x) (target.z - p.z) := by
        rcases lt_or_eq_of_le (Real.sqrt_nonneg _) with h | h
        · exact h
        · exact absurd h.symm hm
      refine ⟨projectileSpeed / len (target.x - p.x) (target.z - p.z), ?_, ?_, ?_⟩
      · apply div_pos
        · unfold projectileSpeed
          norm_num
        · exact hmpos
      · show (norm2 (target.x - p.x) (target.z - p.z)).1 * projectileSpeed = _
        unfold norm2
        rw [if_neg (not_lt.mpr hnd)]
        field_simp
        ring
      · show (norm2 (target.x - p.x) (target.z - p.z)).2 * projectileSpeed = _
        unfold norm2
        rw [if_neg (not_lt.mpr hnd)]
        field_simp
        ring
  · intro htarget
    have hres : resolveCast now projRand p acc c
        = { acc with events := (acc.events
              ++ [GameEvent.cast_finish p.playerId c.spellId c.targetEnemyId])
              ++ [GameEvent.spell_effect p.playerId "fireball" "no_target"] } := by
      unfold resolveCast
      rw [if_pos hfb]
      have : castTarget ({ acc with events := acc.events
          ++ [GameEvent.cast_finish p.playerId c.spellId c.targetEnemyId] } : CastCtx).room c
          = none := htarget
      rw [this]
    constructor
    · rw [hunfold, hres]
    · rw [hunfold, hres]
      show ((acc.events ++ [GameEvent.cast_finish p.playerId c.spellId c.targetEnemyId]) ++ _) = _
      rw [hfb, List.append_assoc]
      rfl

noncomputable def wCastTarget : Cast :=
  { spellId := "fireball", targetEnemyId := some "e1", startAt := 0, finishAt := 650 }

noncomputable def wCaster6 : Player := { wAlice with casts := [wCastTarget] }

noncomputable def wEnemy34 : Enemy := { wEnemyFull with x := 3, z := 4 }

noncomputable def wRoom6 : Room :=
  { players := [("s1", wCaster6)], enemies := [("e1", wEnemy34)], projectiles := [], env := wEnv }

noncomputable def wAcc6 : CastCtx := { room := wRoom6, events := [], ctr := 0 }

/-- Witness for C6: a due fireball cast whose target sits at `(3, 4)`. -/
theorem c6_cast_resolution_witness :
    (wCaster6.casts = [wCastTarget] ∧ wCastTarget.spellId = "fireball" ∧
     ¬ (650 : ℤ) < wCastTarget.finishAt ∧
     castTarget wAcc6.room wCastTarget = some wEnemy34 ∧
     1e-6 ≤ len (wEnemy34.x - wCaster6.x) (wEnemy34.z - wCaster6.z)) ∧
    jGet (stepPlayerCasts 650 (fun _ => 0) wAcc6 "s1" wCaster6).room.players "s1"
      = some ({ wCaster6 with casts := [] }) ∧
    (∃ proj : Projectile,
      proj.targetEnemyId = some wEnemy34.enemyId ∧
      proj.x = wCaster6.x ∧ proj.z = wCaster6.z ∧
      proj.vx = (norm2 (wEnemy34.x - wCaster6.x) (wEnemy34.z - wCaster6.z)).1 * projectileSpeed ∧
      proj.vz = (norm2 (wEnemy34.x - wCaster6.x) (wEnemy34.z - wCaster6.z)).2 * projectileSpeed ∧
      proj.ownerId = wCaster6.playerId ∧
      proj.createdAt = 650 ∧ proj.expiresAt = 650 + fireballLifetimeMs ∧
      proj.damage = fireballDamage ∧
      (stepPlayerCasts 650 (fun _ => 0) wAcc6 "s1" wCaster6).room.projectiles
        = (spawnProjectile wAcc6.room proj).projectiles ∧
      (stepPlayerCasts 650 (fun _ => 0) wAcc6 "s1" wCaster6).room.enemies
        = wAcc6.room.enemies ∧
      (stepPlayerCasts 650 (fun _ => 0) wAcc6 "s1" wCaster6).events
        = wAcc6.events
          ++ [GameEvent.cast_finish wCaster6.playerId "fireball" wCastTarget.targetEnemyId,
              GameEvent.projectile_spawn proj.projId "fireball" wCaster6.playerId
                wEnemy34.enemyId] ∧
      (1e-6 ≤ len (wEnemy34.x - wCaster6.x) (wEnemy34.z - wCaster6.z) →
        ∃ s : ℝ, 0 < s ∧ proj.vx = s * (wEnemy34.x - wCaster6.x) ∧
          proj.vz = s * (wEnemy34.z - wCaster6.z))) := by
  have h25 : len (wEnemy34.x - wCaster6.x) (wEnemy34.z - wCaster6.z) = 5 := by
    show len (3 - 0) (4 - 0) = 5
    unfold len
    rw [show ((3 : ℝ) - 0) * ((3 : ℝ) - 0) + ((4 : ℝ) - 0) * ((4 : ℝ) - 0) = 5 ^ 2 by norm_num]
    exact Real.sqrt_sq (by norm_num)
  have hc6 := c6_cast_resolution 650 (fun _ => 0) wAcc6 "s1" wCaster6 wCastTarget
    rfl rfl (by decide)
  exact ⟨⟨rfl, rfl, by decide, rfl, by rw [h25]; norm_num⟩, hc6.1, hc6.2.1 wEnemy34 rfl⟩

noncomputable def wProjOverlap : Projectile :=
  { projId := "pr1", ptype := "fireball", x := 0, z := 0, vx := 0, vz := 0, rotY := 0
    ownerId := "alice", targetEnemyId := some "e1"
    createdAt := -1500, expiresAt := 1000, damage := 12 }

noncomputable def wRoomOverlap : Room :=
  { players := [], enemies := [("e1", wEnemyFull)]
    projectiles := [("pr1", wProjOverlap)], env := wEnv }

/-- Counterexample for C1 as frozen: a tick at which the projectile is both
past its expiry time AND within the 0.6 hit radius of its still-existing
target. The code checks expiry first, so the tick emits only
`projectile_despawn` — no `hit`, no `damage`, the enemy's hp stays 50 —
although clause (b) of the claim promises a hit on the first tick the
distance is below 0.6, and clause (a) only covers projectiles that never
come within the radius. -/
theorem c1_projectile_overlap_counterexample :
    ((1000 : ℤ) ≥ wProjOverlap.expiresAt) ∧
    projTarget wRoomOverlap (moveProj 0 wProjOverlap) = some ("e1", wEnemyFull) ∧
    ((wEnemyFull.x - (moveProj 0 wProjOverlap).x) * (wEnemyFull.x - (moveProj 0 wProjOverlap).x)
      + (wEnemyFull.z - (moveProj 0 wProjOverlap).z) * (wEnemyFull.z - (moveProj 0 wProjOverlap).z)
      < 0.6 * 0.6) ∧
    (tickRoom 1000 0 (fun _ => ⟨0, 0⟩) (fun _ => 0) wRoomOverlap).2
      = [GameEvent.projectile_despawn "pr1"] ∧
    (jGet (tickRoom 1000 0 (fun _ => ⟨0, 0⟩) (fun _ => 0) wRoomOverlap).1.enemies "e1").map
        (fun e => e.hp) = some 50 := by
  refine ⟨by decide, rfl, ?_, rfl, ?_⟩
  · show ((0 : ℝ) - (0 + 0 * 0)) * ((0 : ℝ) - (0 + 0 * 0))
        + ((0 : ℝ) - (0 + 0 * 0)) * ((0 : ℝ) - (0 + 0 * 0)) < 0.6 * 0.6
    norm_num
  · show (some ((stepEnemy 1000 0 wRoomOverlap ⟨0, 0⟩ wEnemyFull))).map (fun e => e.hp)
        = some 50
    show some ((stepEnemy 1000 0 wRoomOverlap ⟨0, 0⟩ wEnemyFull).hp) = some 50
    rw [(stepEnemy_hp 1000 0 wRoomOverlap ⟨0, 0⟩ wEnemyFull).1]
    rfl

/-- C1 (amended): per-tick processing of a projectile has exactly three
mutually exclusive outcomes, with expiry checked FIRST: (a) if
`now ≥ expiresAt` (`= createdAt + lifetimeMs`), the projectile despawns via
expiry — a single `projectile_despawn`, no hit, even if it is within the
0.6 hit radius of its target this tick; (b) otherwise, if its target
enemy still exists and the moved projectile's squared distance to it is
below `0.6²`, it despawns via hit on this first such tick — `hit`,
`damage` (hp clamped at 0), `projectile_despawn`, and `enemy_death` iff the
new hp ≤ 0; (c) otherwise it persists, moved. Hence over a projectile's
life the two despawn outcomes are mutually exclusive and expiry wins ties. -/
theorem c1_projectile_tick (now : ℤ) (dt : ℝ) (room : Room) (evs : List GameEvent)
    (pid : String) (pr0 : Projectile) :
    (now ≥ pr0.expiresAt →
      stepProj now dt (room, evs) pid pr0
        = ({ room with projectiles := jDel room.projectiles pid },
           evs ++ [GameEvent.projectile_despawn pid])) ∧
    (∀ (t : String) (e : Enemy), ¬ now ≥ pr0.expiresAt →
      projTarget room (moveProj dt pr0) = some (t, e) →
      ((e.x - (moveProj dt pr0).x) * (e.x - (moveProj dt pr0).x)
          + (e.z - (moveProj dt pr0).z) * (e.z - (moveProj dt pr0).z) < 0.6 * 0.6 →
        ∃ e2 : Enemy, e2.hp = max 0 (e.hp - pr0.damage) ∧ e2.enemyId = e.enemyId ∧
          e2.maxHp = e.maxHp ∧
          stepProj now dt (room, evs) pid pr0
            = ({ room with enemies := jSet room.enemies t e2, projectiles := jDel room.projectiles pid },
               evs ++ [GameEvent.hit pid pr0.ownerId "enemy" e.enemyId,
                       GameEvent.damage pr0.ownerId "enemy" e.enemyId pr0.damage
                         (max 0 (e.hp - pr0.damage)) e.maxHp,
                       GameEvent.projectile_despawn pid]
                 ++ (if max 0 (e.hp - pr0.damage) ≤ 0
                     then [GameEvent.enemy_death e.enemyId] else []))) ∧
      (¬ ((e.x - (moveProj dt pr0).x) * (e.x - (moveProj dt pr0).x)
          + (e.z - (moveProj dt pr0).z) * (e.z - (moveProj dt pr0).z) < 0.6 * 0.6) →
        stepProj now dt (room, evs) pid pr0
          = ({ room with projectiles := jSet room.projectiles pid (moveProj dt pr0) }, evs))) ∧
    (¬ now ≥ pr0.expiresAt → projTarget room (moveProj dt pr0) = none →
      stepProj now dt (room, evs) pid pr0
        = ({ room with projectiles := jSet room.projectiles pid (moveProj dt pr0) }, evs)) := by
  refine ⟨?_, ?_, ?_⟩
  · intro hexp
    unfold stepProj
    simp only [moveProj_expiresAt]
    rw [if_pos hexp]
  · intro t e hexp hpt
    constructor
    · intro hdist
      refine ⟨{ e with hp := max 0 (e.hp - pr0.damage) }, rfl, rfl, rfl, ?_⟩
      unfold stepProj
      simp only [moveProj_expiresAt]
      rw [if_neg hexp, hpt]
      simp only
      rw [if_pos hdist]
      rfl
    · intro hdist
      unfold stepProj
      simp only [moveProj_expiresAt]
      rw [if_neg hexp, hpt]
      simp only
      rw [if_neg hdist]
  · intro hexp hpt
    unfold stepProj
    simp only [moveProj_expiresAt]
    rw [if_neg hexp, hpt]

/-- Witness for C1 (amended), expiry branch at a concrete tick. -/
theorem c1_projectile_tick_witness :
    ((1000 : ℤ) ≥ wProjOverlap.expiresAt) ∧
    stepProj 1000 0 (wRoomOverlap, []) "pr1" wProjOverlap
      = ({ wRoomOverlap with projectiles := jDel wRoomOverlap.projectiles "pr1" },
         [GameEvent.projectile_despawn "pr1"]) :=
  ⟨by decide,
   (c1_projectile_tick 1000 0 wRoomOverlap [] "pr1" wProjOverlap).1 (by decide)⟩

end RT
